import Mathlib

/-!
Verification development for the modular-dm control-tree engine
(`src/index.js`, the `dm` / `dmTopLevelContainer` classes).

The JavaScript source is shallowly embedded: JS values become the inductive
`JSVal`, each control becomes a `Ctrl` tree node carrying its property
registry, access-control list, plain fields, listeners and the
`_bypassNotify` flag, and every core method (`Set`, `Get`, `RemoveChild`,
`NotifyProperty`, `_notify`, `emit`, `on`, `SetAccess`, the generated
getter/setter from `_createControl`) becomes a Lean function over rooted
trees addressed by paths.  Operations return the updated root together with
a trace of emitted events; a thrown `TypeError` is modelled by an error
flag (mutations performed before the throw are kept, as in JS).

JavaScript loose equality (`==` / `!=`), truthiness and string coercion are
modelled faithfully on this value universe; numbers are integers (the
repository only ever compares integral numbers).  Two distinct
objects/arrays are never loosely equal (reference semantics); `JSVal.objRef`
stands for a reference to a live control object.
-/

namespace MDM

/-- JavaScript runtime values, as used by the data model. -/
inductive JSVal where
  | num (n : Int)
  | str (s : String)
  | bool (b : Bool)
  | null
  | undef
  | arr (elems : List JSVal)
  | obj (fields : List (String × JSVal))
  | objRef
deriving Repr, Inhabited

mutual

/-- `String(v)`: JS string conversion (arrays join with `,`, objects print
`[object Object]`). -/
def jsToStr : JSVal → String
  | .num n => toString n
  | .str s => s
  | .bool b => if b then "true" else "false"
  | .null => "null"
  | .undef => "undefined"
  | .arr l => joinParts l
  | .obj _ => "[object Object]"
  | .objRef => "[object Object]"

/-- `Array.prototype.join(",")`: `null`/`undefined` elements print empty. -/
def joinParts : List JSVal → String
  | [] => ""
  | [x] => partStr x
  | x :: y :: xs => partStr x ++ "," ++ joinParts (y :: xs)

def partStr : JSVal → String
  | .null => ""
  | .undef => ""
  | .num n => toString n
  | .str s => s
  | .bool b => if b then "true" else "false"
  | .arr l => joinParts l
  | .obj _ => "[object Object]"
  | .objRef => "[object Object]"

end

/-- A JS number restricted to the integral values the repository uses,
plus NaN (the result of converting non-numeric strings/objects). -/
inductive JSNum where
  | val (n : Int)
  | nan
deriving Repr, DecidableEq

def parseDigits : List Char → Option Nat
  | [] => none
  | ds =>
    if ds.all Char.isDigit then
      some (ds.foldl (fun a c => a * 10 + (c.toNat - 48)) 0)
    else none

def isSpaceChar (c : Char) : Bool :=
  c = ' ' || c = '\t' || c = '\n' || c = '\r'

def trimChars (l : List Char) : List Char :=
  ((l.dropWhile isSpaceChar).reverse.dropWhile isSpaceChar).reverse

/-- `Number(s)` restricted to decimal integer literals; anything else is NaN
(for non-integral numeric strings this still agrees with every comparison
against an integral number). The empty/whitespace string converts to 0. -/
def strToNum (s : String) : JSNum :=
  match trimChars s.toList with
  | [] => .val 0
  | '-' :: ds =>
    match parseDigits ds with
    | some n => .val (-(n : Int))
    | none => .nan
  | '+' :: ds =>
    match parseDigits ds with
    | some n => .val (n : Int)
    | none => .nan
  | ds =>
    match parseDigits ds with
    | some n => .val (n : Int)
    | none => .nan

/-- `ToNumber` on the value universe (objects/arrays go through their
string form). -/
def toNum : JSVal → JSNum
  | .num n => .val n
  | .bool b => .val (if b then 1 else 0)
  | .null => .val 0
  | .undef => .nan
  | .str s => strToNum s
  | .arr l => strToNum (jsToStr (.arr l))
  | .obj _ => .nan
  | .objRef => .nan

/-- Numeric equality; NaN equals nothing. -/
def numEq : JSNum → JSNum → Bool
  | .val a, .val b => a == b
  | _, _ => false

def isNullish : JSVal → Bool
  | .null => true
  | .undef => true
  | _ => false

/-- JS abstract (loose) equality `==` on the value universe.  Distinct
objects/arrays are never equal (reference semantics). -/
def looseEq (a b : JSVal) : Bool :=
  match a, b with
  | .null, x => isNullish x
  | .undef, x => isNullish x
  | x, .null => isNullish x
  | x, .undef => isNullish x
  | .num m, .num n => m == n
  | .str s, .str t => s == t
  | .bool x, .bool y => x == y
  | .num m, .str t => numEq (.val m) (strToNum t)
  | .str s, .num n => numEq (strToNum s) (.val n)
  | .bool x, v => numEq (.val (if x then 1 else 0)) (toNum v)
  | v, .bool y => numEq (toNum v) (.val (if y then 1 else 0))
  | .num m, v => numEq (.val m) (toNum v)
  | v, .num n => numEq (toNum v) (.val n)
  | .str s, v => s == jsToStr v
  | v, .str t => jsToStr v == t
  | _, _ => false

/-- JS truthiness. -/
def truthy : JSVal → Bool
  | .num n => n != 0
  | .str s => s != ""
  | .bool b => b
  | .null => false
  | .undef => false
  | _ => true

/-- `typeof v == "number" || typeof v == "string" || typeof v == "boolean"
|| Array.isArray(v)`: the types the accessor generator and `Set` treat as
settable properties. -/
def settableType : JSVal → Bool
  | .num _ => true
  | .str _ => true
  | .bool _ => true
  | .arr _ => true
  | _ => false

/-- `v && typeof v == "object"`. -/
def isObjectLike : JSVal → Bool
  | .arr _ => true
  | .obj _ => true
  | .objRef => true
  | _ => false

/-- Field access `v.k` on a data value (only objects carry named fields). -/
def getField : JSVal → String → JSVal
  | .obj fs, k =>
    match fs.find? (fun p => p.1 == k) with
    | some p => p.2
    | none => JSVal.undef
  | _, _ => JSVal.undef

/-- Indexed entries of an array (`Object.keys` of a JS array yields the
index strings). -/
def arrEntries (i : Nat) : List JSVal → List (String × JSVal)
  | [] => []
  | x :: xs => (toString i, x) :: arrEntries (i + 1) xs

/-- `Object.keys(v)` together with the values: object fields in insertion
order, array elements under their index strings. -/
def jsEntries : JSVal → List (String × JSVal)
  | .obj fs => fs
  | .arr l => arrEntries 0 l
  | _ => []

/-- JS property assignment on an object being assembled: an existing key
keeps its position and is updated, a new key is appended. -/
def objSet : List (String × JSVal) → String → JSVal → List (String × JSVal)
  | [], k, v => [(k, v)]
  | (k', v') :: rest, k, v =>
    if k' = k then (k', v) :: rest else (k', v') :: objSet rest k v

mutual

/-- Structural size of a data value, the termination measure for `Set`. -/
def jsvalSize : JSVal → Nat
  | .arr l => 1 + jslistSize l
  | .obj fs => 1 + jsfieldsSize fs
  | _ => 1

def jslistSize : List JSVal → Nat
  | [] => 0
  | x :: xs => 1 + jsvalSize x + jslistSize xs

def jsfieldsSize : List (String × JSVal) → Nat
  | [] => 0
  | p :: xs => 1 + jsvalSize p.2 + jsfieldsSize xs

end

def entriesSize : List (String × JSVal) → Nat
  | [] => 0
  | p :: xs => 1 + jsvalSize p.2 + entriesSize xs

/-- An access control entry stored by `SetAccess`: the four channel values
(`Set`, `Get`, `setter`, `getter`), each possibly absent. -/
structure AclEntry where
  aclSet : Option String
  aclGet : Option String
  aclSetter : Option String
  aclGetter : Option String
deriving Repr, DecidableEq

/-- The check `!this._acl[k] || !this._acl[k].chan || this._acl[k].chan ==
'public'` used at the `Set`, `setter`, `getter` and `NotifyProperty` call
sites: passes when no entry exists, the channel value is absent or falsy
(the empty string), or it is exactly `'public'`. -/
def chanPass (e : Option AclEntry) (sel : AclEntry → Option String) : Bool :=
  match e with
  | none => true
  | some a =>
    match sel a with
    | none => true
    | some s => s == "" || s == "public"

/-- The `Get` call-site check (`dm.Get`, line 598): `!this._acl[k] ||
!this._acl[k].Get || this._acl[k] == 'public'`.  The final comparison
compares the ACL *entry* — an object — against the string `'public'`, which
is false for every object entry, so any truthy `Get` value excludes the
property. -/
def getPassBuggy (e : Option AclEntry) : Bool :=
  match e with
  | none => true
  | some a =>
    match a.aclGet with
    | none => true
    | some s => s == ""

/-- Listener identity: an opaque user callback, or the auto-unsubscribe
closure `() => this.off(eventName, listener)` that `on`/`once` register on
a `caller`'s `remove` event. -/
inductive LKind where
  | user (id : Nat)
  | cleanup (target : List String) (ev : String) (oid : Nat)
deriving Repr, DecidableEq

structure Listener where
  event : String
  once : Bool
  kind : LKind
deriving Repr, DecidableEq

/-- One entry of the `_properties` registry.  `alive` records whether the
generated accessor is still defined on the instance: `delete this[name]`
in `RemoveChild` deletes the accessor when the removed child's name
collides with one, while the registry entry survives. -/
structure PropEntry where
  pname : String
  pval : JSVal
  alive : Bool
deriving Repr

/-- The per-control state: `_controlName`, the `_properties` registry,
plain own data fields (such as `remove = undefined` or alias fields that
shadow prototype methods), `_acl`, the listener list and `_bypassNotify`. -/
structure CtrlData where
  cname : String
  props : List PropEntry
  flds : List (String × JSVal)
  acl : List (String × AclEntry)
  listeners : List Listener
  bypassNotify : Bool
deriving Repr

mutual

/-- A control: its own state plus the `_controls` children map (an ordered
association list, which also serves as the direct-reference aliases). -/
inductive Ctrl where
  | node (d : CtrlData) (children : Ctrls)

inductive Ctrls where
  | nil
  | cons (name : String) (c : Ctrl) (rest : Ctrls)

end

def Ctrl.data : Ctrl → CtrlData
  | .node d _ => d

def Ctrl.children : Ctrl → Ctrls
  | .node _ cs => cs

def Ctrls.find? : Ctrls → String → Option Ctrl
  | .nil, _ => none
  | .cons n c rest, k => if n = k then some c else Ctrls.find? rest k

/-- `delete this._controls[k]`. -/
def Ctrls.erase : Ctrls → String → Ctrls
  | .nil, _ => .nil
  | .cons n c rest, k => if n = k then rest else .cons n c (Ctrls.erase rest k)

/-- `this._controls[k] = c` (update in place or append). -/
def Ctrls.setEntry : Ctrls → String → Ctrl → Ctrls
  | .nil, n, c => .cons n c .nil
  | .cons m x rest, n, c =>
    if m = n then .cons m c rest else .cons m x (Ctrls.setEntry rest n c)

def Ctrls.modify : Ctrls → String → (Ctrl → Ctrl) → Ctrls
  | .nil, _, _ => .nil
  | .cons n c rest, k, f =>
    if n = k then .cons n (f c) rest else .cons n c (Ctrls.modify rest k f)

/-- Look a control up by its path from the root. -/
def Ctrl.getAt : Ctrl → List String → Option Ctrl
  | c, [] => some c
  | c, k :: rest =>
    match (Ctrl.children c).find? k with
    | some ch => Ctrl.getAt ch rest
    | none => none

/-- Apply `f` to the control at the given path (identity if the path
dangles). -/
def Ctrl.modAt : Ctrl → List String → (Ctrl → Ctrl) → Ctrl
  | c, [], f => f c
  | .node d cs, k :: rest, f => .node d (cs.modify k (fun ch => ch.modAt rest f))

def Ctrl.withData (c : Ctrl) (f : CtrlData → CtrlData) : Ctrl :=
  match c with
  | .node d cs => .node (f d) cs

def Ctrl.setChildren (c : Ctrl) (cs : Ctrls) : Ctrl :=
  match c with
  | .node d _ => .node d cs

def propsFind : List PropEntry → String → Option PropEntry
  | [], _ => none
  | e :: rest, k => if e.pname = k then some e else propsFind rest k

/-- `this._properties[k] = v` (the registry key set is fixed at wrap time;
a write updates in place). -/
def propsSetVal : List PropEntry → String → JSVal → List PropEntry
  | [], _, _ => []
  | e :: rest, k, v =>
    if e.pname = k then { e with pval := v } :: rest
    else e :: propsSetVal rest k v

/-- `delete this[k]` on a live generated accessor: the accessor goes away,
the registry entry stays. -/
def propsKill : List PropEntry → String → List PropEntry
  | [], _ => []
  | e :: rest, k =>
    if e.pname = k then { e with alive := false } :: rest
    else e :: propsKill rest k

def fldsFind : List (String × JSVal) → String → Option JSVal
  | [], _ => none
  | p :: rest, k => if p.1 = k then some p.2 else fldsFind rest k

def fldsSet : List (String × JSVal) → String → JSVal → List (String × JSVal)
  | [], k, v => [(k, v)]
  | p :: rest, k, v => if p.1 = k then (k, v) :: rest else p :: fldsSet rest k v

def fldsErase : List (String × JSVal) → String → List (String × JSVal)
  | [], _ => []
  | p :: rest, k => if p.1 = k then rest else p :: fldsErase rest k

def aclFind : List (String × AclEntry) → String → Option AclEntry
  | [], _ => none
  | p :: rest, k => if p.1 = k then some p.2 else aclFind rest k

def aclPut : List (String × AclEntry) → String → AclEntry → List (String × AclEntry)
  | [], k, a => [(k, a)]
  | p :: rest, k, a => if p.1 = k then (k, a) :: rest else p :: aclPut rest k a

/-- The public prototype methods of `dm` that a same-named own field, child
alias or generated accessor would shadow. -/
def methodNames : List String :=
  ["Set", "Get", "on", "once", "off", "emit", "RemoveChild", "NotifyProperty",
   "Log", "Init", "SetAccess", "removeAllListeners"]

/-- Resolution of `this[k]` past the generated accessors: plain own data
fields, then the child alias (a control object), then the prototype
methods (both modelled by the opaque non-settable `objRef`). -/
def Ctrl.getRest (c : Ctrl) (k : String) : JSVal :=
  match fldsFind c.data.flds k with
  | some v => v
  | none =>
    match (Ctrl.children c).find? k with
    | some _ => .objRef
    | none => if methodNames.contains k then .objRef else JSVal.undef

/-- Property lookup `this[k]`: a live generated accessor wins (its getter
consults the `getter` channel and yields `undefined` when denied), then
the rest of the own/prototype chain. -/
def Ctrl.getP (c : Ctrl) (k : String) : JSVal :=
  match propsFind c.data.props k with
  | some e =>
    if e.alive then
      if chanPass (aclFind c.data.acl k) AclEntry.aclGetter then e.pval else .undef
    else Ctrl.getRest c k
  | none => Ctrl.getRest c k

/-- A prototype method is shadowed (and calling it is a TypeError) when an
own live accessor, plain field or child alias bears its name. -/
def Ctrl.shadowed (c : Ctrl) (m : String) : Bool :=
  (match propsFind c.data.props m with
   | some e => e.alive
   | none => false)
  || (fldsFind c.data.flds m).isSome
  || ((Ctrl.children c).find? m).isSome

/-- `this.hideData`, as every internal site reads it (through the
accessor). -/
def Ctrl.hiddenFlag (c : Ctrl) : Bool :=
  truthy (c.getP "hideData")

/-- The raw registry read `this._properties[k]` (no getter, no ACL), as
the generated setter's equality gate uses it. -/
def Ctrl.rawProp (c : Ctrl) (k : String) : JSVal :=
  match propsFind c.data.props k with
  | some e => e.pval
  | none => JSVal.undef

/-- Observable happenings: an emission dispatch at a node, and each
listener invocation. -/
inductive Evt where
  | emitE (path : List String) (event : String) (payload : JSVal)
  | invoke (path : List String) (event : String) (k : LKind) (payload : JSVal)
deriving Repr

def Evt.isDataAt (e : Evt) (π : List String) : Bool :=
  match e with
  | .emitE q ev _ => q = π && ev = "data"
  | _ => false

def Evt.isData (e : Evt) : Bool :=
  match e with
  | .emitE _ ev _ => ev = "data"
  | _ => false

def Ctrl.setListeners (c : Ctrl) (ls : List Listener) : Ctrl :=
  c.withData (fun d => { d with listeners := ls })

/-- `removeListener` drops the most recently added matching instance. -/
def removeFirstMatch : List Listener → String → LKind → List Listener
  | [], _, _ => []
  | l :: rest, e, k =>
    if l.event == e && l.kind == k then rest
    else l :: removeFirstMatch rest e k

def offListeners (ls : List Listener) (e : String) (k : LKind) : List Listener :=
  (removeFirstMatch ls.reverse e k).reverse

/-- `emitter.off(eventName, listener)` at a path (no-op on a dangling
path, matching a detached target). -/
def offAt (root : Ctrl) (π : List String) (e : String) (k : LKind) : Ctrl :=
  root.modAt π (fun c => c.setListeners (offListeners c.data.listeners e k))

/-- `super.emit(eventName, data)`: call, in registration order, every
listener registered for the event at `π` (the emitter iterates a snapshot
taken at entry); fired `once` listeners are removed; a `caller`-cleanup
listener deregisters its recorded listener at its target node. -/
def emitStep (π : List String) (e : String) (payload : JSVal)
    (acc : Ctrl × List Evt) (l : Listener) : Ctrl × List Evt :=
  match l.kind with
  | .user i => (acc.1, acc.2 ++ [Evt.invoke π e (.user i) payload])
  | .cleanup tgt ev oid =>
    (offAt acc.1 tgt ev (.user oid), acc.2 ++ [Evt.invoke π e l.kind payload])

def emitLocal (root : Ctrl) (π : List String) (e : String) (payload : JSVal) :
    Ctrl × List Evt :=
  match root.getAt π with
  | none => (root, [])
  | some c =>
    let snapshot := c.data.listeners.filter (fun l => l.event == e)
    let root1 := root.modAt π (fun n =>
      n.setListeners (n.data.listeners.filter (fun l => !(l.event == e && l.once))))
    snapshot.foldl (emitStep π e payload) (root1, [Evt.emitE π e payload])

/-- `dm.emit(eventName, data, scope)`: local emission for `local`,
`local_top` and `bubble`; `bubble` recurses over the parent chain;
`top`/`local_top` additionally emit plainly on the top level parent. -/
def emitScoped (root : Ctrl) (π : List String) (e : String) (payload : JSVal)
    (scope : String) : Ctrl × List Evt :=
  let s1 :=
    if scope == "local" || scope == "local_top" || scope == "bubble" then
      emitLocal root π e payload
    else (root, [])
  let s2 :=
    if h : scope == "bubble" ∧ π ≠ [] then
      let r := emitScoped s1.1 π.dropLast e payload scope
      (r.1, s1.2 ++ r.2)
    else s1
  if scope == "top" || scope == "local_top" then
    let r := emitLocal s2.1 [] e payload
    (r.1, s2.2 ++ r.2)
  else s2
termination_by π.length
decreasing_by
  cases π with
  | nil => exact absurd rfl h.2
  | cons a l => simp [List.length_dropLast]

/-- `dm._notify(data)`, processed along the reversed node path (so the
recursion is structural): wrap the delta under `_controlName` and forward
to the parent's `_notify` unless this control is hidden (the parent
recursion runs to completion first, so ancestor `data` events precede this
node's), then emit the local `data` event.  A shadowed `emit` is a
TypeError. -/
def notifyRev (root : Ctrl) (ρ : List String) (delta : JSVal) :
    Ctrl × List Evt × Bool :=
  match root.getAt ρ.reverse with
  | none => (root, [], false)
  | some c =>
    let up :=
      match ρ with
      | [] => (root, [], false)
      | _ :: ρp =>
        if c.hiddenFlag then (root, [], false)
        else notifyRev root ρp (.obj [(c.data.cname, delta)])
    if up.2.2 then up
    else if c.shadowed "emit" then (up.1, up.2.1, true)
    else
      let r := emitLocal up.1 ρ.reverse "data" delta
      (r.1, up.2.1 ++ r.2, false)

/-- `dm._notify(data)` at a path from the root. -/
def notifyAt (root : Ctrl) (π : List String) (delta : JSVal) :
    Ctrl × List Evt × Bool :=
  notifyRev root π.reverse delta

/-- The single-name delta of `dm.NotifyProperty`: the property is included
when it reads loosely non-undefined through the getter and its `Get`
channel permits. -/
def notifyDelta1 (c : Ctrl) (p : String) : JSVal :=
  if !(looseEq (c.getP p) .undef) then
    if chanPass (aclFind c.data.acl p) AclEntry.aclGet then .obj [(p, c.getP p)]
    else .obj []
  else .obj []

/-- The array-argument delta of `dm.NotifyProperty`: for each name, the
`Get` channel is consulted first, then the loosely-defined check. -/
def notifyDeltaMany (c : Ctrl) (ps : List String) : JSVal :=
  .obj (ps.foldl
    (fun acc p =>
      if chanPass (aclFind c.data.acl p) AclEntry.aclGet then
        if !(looseEq (c.getP p) .undef) then objSet acc p (c.getP p) else acc
      else acc)
    [])

/-- `dm.NotifyProperty(propertyName)` for a single name, as the generated
setter calls it. -/
def NotifyPropertyAt (root : Ctrl) (π : List String) (p : String) :
    Ctrl × List Evt × Bool :=
  match root.getAt π with
  | none => (root, [], false)
  | some c => notifyAt root π (notifyDelta1 c p)

def Ctrl.setBypass (c : Ctrl) (b : Bool) : Ctrl :=
  c.withData (fun d => { d with bypassNotify := b })

def Ctrl.setPropVal (c : Ctrl) (k : String) (v : JSVal) : Ctrl :=
  c.withData (fun d => { d with props := propsSetVal d.props k v })

def Ctrl.setFld (c : Ctrl) (k : String) (v : JSVal) : Ctrl :=
  c.withData (fun d => { d with flds := fldsSet d.flds k v })

/-- The generated setter (`Object.defineProperty` in `_createControl`):
equality-gated against the raw registry value, gated by the `setter`
channel; an accepted change stores the value, runs `NotifyProperty` unless
`_bypassNotify` is set (in which case the flag is merely cleared), then
emits the property-named event; the trailing statement clears
`_bypassNotify` unconditionally.  Calling a shadowed `NotifyProperty` or
`emit` is a TypeError (mutations already performed are kept). -/
def setterAt (root : Ctrl) (π : List String) (k : String) (v : JSVal) :
    Ctrl × List Evt × Bool :=
  match root.getAt π with
  | none => (root, [], false)
  | some c =>
    let cur := c.rawProp k
    if !(looseEq cur v) then
      if chanPass (aclFind c.data.acl k) AclEntry.aclSetter then
        let r1 := root.modAt π (fun n => n.setPropVal k v)
        if c.data.bypassNotify then
          let r2 := r1.modAt π (fun n => n.setBypass false)
          if c.shadowed "emit" then (r2, [], true)
          else
            let r3 := emitLocal r2 π k v
            (r3.1.modAt π (fun n => n.setBypass false), r3.2, false)
        else
          if c.shadowed "NotifyProperty" then (r1, [], true)
          else
            let r2 := NotifyPropertyAt r1 π k
            if r2.2.2 then r2
            else if c.shadowed "emit" then (r2.1, r2.2.1, true)
            else
              let r3 := emitLocal r2.1 π k v
              (r3.1.modAt π (fun n => n.setBypass false), r2.2.1 ++ r3.2, false)
      else
        (root.modAt π (fun n => n.setBypass false), [], false)
    else
      (root.modAt π (fun n => n.setBypass false), [], false)

/-- `this[k] = v`: run the generated setter when `k` is a live accessor,
otherwise write the plain own field (no gating, no events — e.g. the top
level container's fields, which are never wrapped). -/
def assignAt (root : Ctrl) (π : List String) (k : String) (v : JSVal) :
    Ctrl × List Evt × Bool :=
  match root.getAt π with
  | none => (root, [], false)
  | some c =>
    match propsFind c.data.props k with
    | some e =>
      if e.alive then setterAt root π k v
      else (root.modAt π (fun n => n.setFld k v), [], false)
    | none => (root.modAt π (fun n => n.setFld k v), [], false)

def Ctrl.deleteOwn (c : Ctrl) (k : String) : Ctrl :=
  c.withData (fun d =>
    match propsFind d.props k with
    | some e =>
      if e.alive then { d with props := propsKill d.props k }
      else { d with flds := fldsErase d.flds k }
    | none => { d with flds := fldsErase d.flds k })

/-- `dm.RemoveChild(control)`: when the name is a current child, emit
`remove` on the child first (the child is still attached, so its
caller-cleanup listeners run and deregister their targets), then delete
the children entry and the direct alias (`delete this[name]` deletes a
live generated accessor on a name collision), then drop the child's own
listeners (the detached subtree leaves the model together with them).
A non-existent name is a silent no-op. -/
def RemoveChildAt (root : Ctrl) (π : List String) (name : String) :
    Ctrl × List Evt × Bool :=
  match root.getAt π with
  | none => (root, [], false)
  | some parent =>
    match parent.children.find? name with
    | none => (root, [], false)
    | some c =>
      if c.shadowed "emit" then (root, [], true)
      else
        let r1 := emitLocal root (π ++ [name]) "remove" .objRef
        let r2 := r1.1.modAt π (fun p => p.setChildren (p.children.erase name))
        let r3 := r2.modAt π (fun p => p.deleteOwn name)
        if c.shadowed "removeAllListeners" then (r3, r1.2, true)
        else (r3, r1.2, false)

def Ctrl.addListener (c : Ctrl) (l : Listener) : Ctrl :=
  c.withData (fun d => { d with listeners := d.listeners ++ [l] })

/-- `dm.on(eventName, listener, options)`: register the listener;
`immediate` invokes it at once when the event name reads loosely defined;
`caller` additionally registers, on the caller's `remove` event, the
cleanup closure that will `off` this listener. -/
def onAt (root : Ctrl) (π : List String) (e : String) (lid : Nat)
    (immediate : Bool) (caller : Option (List String)) : Ctrl × List Evt :=
  match root.getAt π with
  | none => (root, [])
  | some c =>
    let r1 := root.modAt π (fun n =>
      n.addListener { event := e, once := false, kind := .user lid })
    let t1 :=
      if immediate && !(looseEq (c.getP e) .undef) then
        [Evt.invoke π e (.user lid) (c.getP e)]
      else []
    let r2 :=
      match caller with
      | some cp => r1.modAt cp (fun n =>
          n.addListener { event := "remove", once := false, kind := .cleanup π e lid })
      | none => r1
    (r2, t1)

/-- `dm.once(eventName, listener, options)`: one-shot listener with the
same `caller` cleanup behaviour. -/
def onceAt (root : Ctrl) (π : List String) (e : String) (lid : Nat)
    (caller : Option (List String)) : Ctrl :=
  let r1 := root.modAt π (fun n =>
    n.addListener { event := e, once := true, kind := .user lid })
  match caller with
  | some cp => r1.modAt cp (fun n =>
      n.addListener { event := "remove", once := false, kind := .cleanup π e lid })
  | none => r1

/-- `dm.SetAccess(propertyName, ACL)`: stored only when the property reads
loosely defined on the control; otherwise silently ignored. -/
def SetAccessAt (root : Ctrl) (π : List String) (p : String) (a : AclEntry) : Ctrl :=
  match root.getAt π with
  | none => root
  | some c =>
    if !(looseEq (c.getP p) .undef) then
      root.modAt π (fun n => n.withData (fun d => { d with acl := aclPut d.acl p a }))
    else root

/-- The own-properties pass of `dm.Get`: iterate the `_properties`
registry (insertion order), keep entries passing the (buggy) `Get`
channel check, and apply the sparse filter `options.sparse &&
this._properties[k] != '' || !options.sparse`. -/
def getOwnStep (acl : List (String × AclEntry)) (sparse : Bool)
    (acc : List (String × JSVal)) (e : PropEntry) : List (String × JSVal) :=
  if getPassBuggy (aclFind acl e.pname) then
    if (sparse && !(looseEq e.pval (.str ""))) || !sparse then
      objSet acc e.pname e.pval
    else acc
  else acc

def getOwnProps (d : CtrlData) (sparse : Bool) : List (String × JSVal) :=
  d.props.foldl (getOwnStep d.acl sparse) []

mutual

/-- `dm.Get(options)`: collect own registry entries, then for each child
whose `Get` member reads loosely defined and whose `hideData` is falsy,
nest the child's `Get(options)` under its name.  A child whose `Get`
resolves to a non-callable own value is a TypeError that aborts the whole
call. -/
def Ctrl.Get : Ctrl → Bool → Except Unit (List (String × JSVal))
  | .node d cs, sparse => getKids cs sparse (getOwnProps d sparse)

def getKids : Ctrls → Bool → List (String × JSVal) → Except Unit (List (String × JSVal))
  | .nil, _, acc => .ok acc
  | .cons n ch rest, sparse, acc =>
    let guardVal := if ch.shadowed "Get" then ch.getP "Get" else .objRef
    if !(looseEq guardVal .undef) && !ch.hiddenFlag then
      if ch.shadowed "Get" then .error ()
      else
        match Ctrl.Get ch sparse with
        | .error u => .error u
        | .ok sub => getKids rest sparse (objSet acc n (.obj sub))
    else getKids rest sparse acc

end

/-- A node class: the own data fields its constructor assigns after the
`dm` base constructor runs. -/
structure ClassDef where
  ifields : List (String × JSVal)
deriving Repr

/-- The type resolver environment: the classes loadable by name.  (The
process-wide `_cls_` cache on the top level parent caches successful
loads only, so it is semantically transparent.) -/
structure Env where
  classes : List (String × ClassDef)
deriving Repr

/-- The identifier guard in `_getDynamicClass`:
`name.match(^[a-zA-Z0-9_]+$)`. -/
def validClassName (s : String) : Bool :=
  s ≠ "" && s.toList.all (fun ch => ch.isAlphanum || ch = '_')

def resolveClass (env : Env) (name : String) : Option ClassDef :=
  if validClassName name then
    match env.classes.find? (fun p => p.1 == name) with
    | some p => some p.2
    | none => none
  else none

/-- Construction inside `_createControl`: the `dm` constructor assigns
`controlType`, `hideData` and `remove = undefined`, the subclass
constructor appends its own fields; then the accessor generator wraps
every own non-underscore field of settable type into `_properties`
(underscore-prefixed machinery fields are internal and not modelled as
data). -/
def instantiate (cls : ClassDef) (typeName : String) (name : String) : Ctrl :=
  let own : List (String × JSVal) :=
    [("controlType", .str typeName), ("hideData", .bool false), ("remove", .undef)]
      ++ cls.ifields
  let isWrapped := fun (p : String × JSVal) => p.1.take 1 ≠ "_" && settableType p.2
  .node
    { cname := name
      props := (own.filter isWrapped).map
        (fun p => { pname := p.1, pval := p.2, alive := true })
      flds := own.filter (fun p => !isWrapped p)
      acl := []
      listeners := []
      bypassNotify := false }
    .nil

/-- The alias assignment `this[name] = control` in `_createControl`: runs
a live generated setter on a name collision, overwrites a dead-accessor or
plain own field, and otherwise the children-map entry itself is the
alias. -/
def aliasAssign (root : Ctrl) (π : List String) (name : String) :
    Ctrl × List Evt × Bool :=
  match root.getAt π with
  | none => (root, [], false)
  | some c =>
    match propsFind c.data.props name with
    | some e =>
      if e.alive then setterAt root π name .objRef
      else (root.modAt π (fun n => n.setFld name .objRef), [], false)
    | none =>
      match fldsFind c.data.flds name with
      | some _ => (root.modAt π (fun n => n.setFld name .objRef), [], false)
      | none => (root, [], false)

mutual

/-- `dm.Set(data)` (fueled: the wrapper `SetAt` supplies a fuel strictly
dominating the recursion measure, so the zero-fuel fallback is never
reached — see the fuel-stability lemmas): walk the keys of a declarative
object in insertion order (non-objects are ignored); a thrown TypeError
aborts the remaining keys but keeps mutations already made.  A detached
control's mutations are unobservable from the root and the model drops
them. -/
def SetF : Nat → Env → Ctrl → List String → JSVal → Ctrl × List Evt × Bool
  | 0, _, root, _, _ => (root, [], false)
  | fuel + 1, env, root, π, d =>
    match root.getAt π with
    | none => (root, [], false)
    | some c =>
      if c.shadowed "Set" then (root, [], true)
      else if truthy d && isObjectLike d then setKeysF fuel env root π (jsEntries d)
      else (root, [], false)

def setKeysF : Nat → Env → Ctrl → List String → List (String × JSVal) →
    Ctrl × List Evt × Bool
  | 0, _, root, _, _ => (root, [], false)
  | fuel + 1, env, root, π, l =>
    match l with
    | [] => (root, [], false)
    | (k, v) :: rest =>
      let s1 := setKeyF fuel env root π k v
      if s1.2.2 then s1
      else
        let s2 := setKeysF fuel env s1.1 π rest
        (s2.1, s1.2.1 ++ s2.2.1, s2.2.2)

/-- One key of `dm.Set`: the `remove` command, the ignored
underscore/`controlType` keys, the settable-property branch (with
`_bypassNotify` raised before the write and `null`/`undefined` coerced to
their string form), the child-forwarding branch, and the
`_createControl` branch. -/
def setKeyF : Nat → Env → Ctrl → List String → String → JSVal →
    Ctrl × List Evt × Bool
  | 0, _, root, _, _, _ => (root, [], false)
  | fuel + 1, env, root, π, k, v =>
    match root.getAt π with
    | none => (root, [], false)
    | some c =>
      if k = "remove" then
        if looseEq v (.bool true) then
          if π = [] then (root, [], true)
          else
            match root.getAt π.dropLast with
            | none => (root, [], false)
            | some par =>
              if par.shadowed "RemoveChild" then (root, [], true)
              else RemoveChildAt root π.dropLast c.data.cname
        else (root, [], false)
      else if k.take 1 = "_" || k = "controlType" then (root, [], false)
      else
        let cur := c.getP k
        if !(looseEq cur .undef) && settableType cur then
          if chanPass (aclFind c.data.acl k) AclEntry.aclSet then
            let rb := root.modAt π (fun n => n.setBypass true)
            if !(looseEq v .null) then assignAt rb π k v
            else assignAt rb π k (.str (jsToStr v))
          else (root, [], false)
        else
          match c.children.find? k with
          | some _ => SetF fuel env root (π ++ [k]) v
          | none =>
            if !(looseEq v .null) && !(looseEq (getField v "controlType") .undef) then
              createControlF fuel env root π v k
            else (root, [], false)

/-- `dm._createControl(data, name)`: resolve the class (a non-string
`controlType` makes `name.match` throw; an unknown or invalid name is a
silent skip), instantiate, register under `_controls`, assign the direct
alias (`this[name] = control` runs a live generated setter on a name
collision, otherwise the own field / the children map itself is the
alias), apply the data, run the no-op base `Init`, then emit the
name-keyed and `newChildControl` events on the parent. -/
def createControlF : Nat → Env → Ctrl → List String → JSVal → String →
    Ctrl × List Evt × Bool
  | 0, _, root, _, _, _ => (root, [], false)
  | fuel + 1, env, root, π, dat, name =>
    match getField dat "controlType" with
    | .str tn =>
      match resolveClass env tn with
      | none => (root, [], false)
      | some cls =>
        match root.getAt π with
        | none => (root, [], false)
        | some _ =>
          let control := instantiate cls tn name
          let r1 := root.modAt π (fun p => p.setChildren (p.children.setEntry name control))
          let s2 := aliasAssign r1 π name
          if s2.2.2 then s2
          else
            let s3 := SetF fuel env s2.1 (π ++ [name]) dat
            if s3.2.2 then (s3.1, s2.2.1 ++ s3.2.1, true)
            else
              let t0 := s2.2.1 ++ s3.2.1
              let initBad :=
                match Ctrl.getAt s3.1 (π ++ [name]) with
                | some ch => ch.shadowed "Init"
                | none => false
              if initBad then (s3.1, t0, true)
              else
                match Ctrl.getAt s3.1 π with
                | none => (s3.1, t0, false)
                | some par =>
                  if par.shadowed "emit" then (s3.1, t0, true)
                  else
                    let s4 := emitLocal s3.1 π name .objRef
                    let s5 := emitLocal s4.1 π "newChildControl" .objRef
                    (s5.1, t0 ++ s4.2 ++ s5.2, false)
    | .undef => (root, [], false)
    | _ => (root, [], true)

end

/-- A fuel bound strictly dominating the `Set` recursion measure. -/
def setFuel (d : JSVal) : Nat := 4 * jsvalSize d + 4

/-- `dm.Set(data)`. -/
def SetAt (env : Env) (root : Ctrl) (π : List String) (d : JSVal) :
    Ctrl × List Evt × Bool :=
  SetF (setFuel d) env root π d

def listenersAt (r : Ctrl) (q : List String) : Option (List Listener) :=
  (r.getAt q).map (fun c => c.data.listeners)

def propsAt (r : Ctrl) (q : List String) : Option (List PropEntry) :=
  (r.getAt q).map (fun c => c.data.props)

mutual

/-- Erase every listener list and transient `_bypassNotify` flag in the
tree (the data-state projection; no observable output reads either). -/
def stripL : Ctrl → Ctrl
  | .node d cs => .node { d with listeners := [], bypassNotify := false } (stripLs cs)

def stripLs : Ctrls → Ctrls
  | .nil => .nil
  | .cons n c rest => .cons n (stripL c) (stripLs rest)

end

/-! ## Concrete states used by witnesses and counterexamples -/

/-- An environment with the README's example classes. -/
def envDemo : Env :=
  ⟨[("house", ⟨[("streetNumber", .str "")]⟩),
    ("room", ⟨[("doors", .num 1), ("windows", .num 1)]⟩)]⟩

def envEmpty : Env := ⟨[]⟩

/-- The own state a fresh `dmTopLevelContainer` carries (its fields are
plain: the accessor generator only runs on children built by
`_createControl`). -/
def tlcData : CtrlData :=
  { cname := "topLevelContainer", props := []
    flds := [("controlType", .str "dmTopLevelContainer"),
             ("hideData", .bool false), ("remove", .undef)]
    acl := [], listeners := [], bypassNotify := false }

/-- The own state of a wrapped control of type `ty` named `name` with the
given extra generated properties. -/
def wrappedData (name ty : String) (extra : List PropEntry) : CtrlData :=
  { cname := name
    props := ⟨"controlType", .str ty, true⟩ :: ⟨"hideData", .bool false, true⟩ :: extra
    flds := [("remove", .undef)]
    acl := [], listeners := [], bypassNotify := false }

def c9demo : Ctrl :=
  .node (wrappedData "x" "ctl" [⟨"p", .num 1, true⟩]) .nil

def c4demo : Ctrl :=
  .node { cname := "x", props := [⟨"p", .num 0, true⟩], flds := [], acl := [],
          listeners := [], bypassNotify := false } .nil

def c1acl : AclEntry := ⟨none, some "public", none, none⟩

def c1base : Ctrl :=
  .node { cname := "room1", props := [⟨"windows", .num 2, true⟩], flds := [],
          acl := [], listeners := [], bypassNotify := false } .nil

def c1demo : Ctrl := SetAccessAt c1base [] "windows" c1acl

def c3child : Ctrl := .node (wrappedData "a" "ctl" [⟨"p", .num 1, true⟩]) .nil

def c3root : Ctrl := .node tlcData (.cons "a" c3child .nil)

def c4wData : CtrlData :=
  { cname := "x", props := [⟨"q", .str "v", true⟩], flds := [], acl := [],
    listeners := [], bypassNotify := false }

/-- An ACL entry `{getter: 'none'}`. -/
def aclGetterNone : AclEntry := ⟨none, none, none, some "none"⟩

/-- A control with a `w` property whose getter channel is denied, plus a
child also named by an unrelated key, for the C10 dispatch witness. -/
def c10data : CtrlData :=
  { cname := "x"
    props := [⟨"w", .num 3, true⟩]
    flds := []
    acl := [("w", aclGetterNone)]
    listeners := [], bypassNotify := false }

def c10kid : Ctrl :=
  .node { cname := "w", props := [], flds := [], acl := [], listeners := [],
          bypassNotify := false } .nil

def c10demo : Ctrl := .node c10data (.cons "w" c10kid .nil)

def c10noKid : Ctrl := .node c10data .nil

def c5B : Ctrl := .node (wrappedData "b1" "room" [⟨"p", .num 1, true⟩]) .nil

def c5A : Ctrl := .node (wrappedData "a1" "house" []) (.cons "b1" c5B .nil)

def c5root : Ctrl := .node tlcData (.cons "a1" c5A .nil)

/-- A hidden wrapped control (its `hideData` accessor reads `true`). -/
def c6A : Ctrl :=
  .node { cname := "h"
          props := [⟨"controlType", .str "ctl", true⟩,
                    ⟨"hideData", .bool true, true⟩, ⟨"p", .num 1, true⟩]
          flds := [("remove", .undef)]
          acl := [], listeners := [], bypassNotify := false } .nil

def c6root : Ctrl := .node tlcData (.cons "h" c6A .nil)

/-- Number of listeners for event `e` registered by user listener `lid`. -/
def countL : List Listener → String → Nat → Nat
  | [], _, _ => 0
  | l :: rest, e, lid =>
    (if l.event = e ∧ l.kind = .user lid then 1 else 0) + countL rest e lid

def countAt (r : Ctrl) (q : List String) (e : String) (lid : Nat) : Nat :=
  match listenersAt r q with
  | some ls => countL ls e lid
  | none => 0

/-- A child carrying the caller-cleanup closure that `on` with
`{caller: child}` registers on the child's `remove` event. -/
def c7x : Ctrl :=
  .node { cname := "x"
          props := [⟨"controlType", .str "ctl", true⟩,
                    ⟨"hideData", .bool false, true⟩]
          flds := [("remove", .undef)]
          acl := [], listeners := [⟨"remove", false, .cleanup [] "e" 7⟩]
          bypassNotify := false } .nil

def c7root : Ctrl :=
  .node { tlcData with listeners := [⟨"e", false, .user 7⟩] }
    (.cons "x" c7x .nil)

def c8room : Ctrl :=
  .node (wrappedData "room1" "room" [⟨"windows", .num 2, true⟩]) .nil

def d8 : JSVal :=
  .obj [("emit", .obj [("controlType", .str "room")]), ("windows", .num 9)]

/-- The equality-gated single-property write of the generated setter, as
a pure function on a node: iterated over a flat key list. -/
def writeKeys (c : Ctrl) : List (String × JSVal) → Ctrl
  | [] => c
  | (k, v) :: rest =>
    writeKeys (if looseEq (c.rawProp k) v then c else c.setPropVal k v) rest

/-- The conditions under which one key of a flat `Set` data object is an
ordinary observable property write: not a command or skipped key, a
self-equal settable value, open channels, and a live generated accessor
holding a settable, loosely-defined value. -/
def goodKey (c : Ctrl) (k : String) (v : JSVal) : Prop :=
  k ≠ "remove" ∧ k.take 1 ≠ "_" ∧ k ≠ "controlType" ∧
  settableType v = true ∧ looseEq v v = true ∧
  chanPass (aclFind c.data.acl k) AclEntry.aclGetter = true ∧
  chanPass (aclFind c.data.acl k) AclEntry.aclSet = true ∧
  chanPass (aclFind c.data.acl k) AclEntry.aclSetter = true ∧
  ∃ e, propsFind c.data.props k = some e ∧ e.alive = true ∧
    settableType e.pval = true ∧ isNullish e.pval = false

/-- Nested field lookup in a `Get` result. -/
def digPath : JSVal → List String → JSVal
  | v, [] => v
  | v, t :: τ => digPath (getField v t) τ

def kidNames : Ctrls → List String
  | .nil => []
  | .cons n _ rest => n :: kidNames rest

def nodupKeys : List String → Bool
  | [] => true
  | x :: xs => (!xs.contains x) && nodupKeys xs

/-- Well-formedness of a descent path, per the data model's invariant that
a property and a child never share a name: each step names an existing
child, no same-named own property entry exists at that level, and the
children names are duplicate-free. -/
def pathOK : Ctrl → List String → Bool
  | _, [] => true
  | c, t :: τ =>
    match (Ctrl.children c).find? t with
    | some ch =>
      (propsFind c.data.props t).isNone &&
        nodupKeys (kidNames (Ctrl.children c)) && pathOK ch τ
    | none => false


/-! ## Path and projection lemmas -/

theorem entriesSize_arrEntries (i : Nat) (l : List JSVal) :
    entriesSize (arrEntries i l) = jslistSize l := by
  induction l generalizing i with
  | nil => rfl
  | cons x xs ih => simp [arrEntries, entriesSize, jslistSize, ih]

theorem entriesSize_fields (fs : List (String × JSVal)) :
    entriesSize fs = jsfieldsSize fs := by
  induction fs with
  | nil => rfl
  | cons p xs ih => simp [entriesSize, jsfieldsSize, ih]

theorem jsvalSize_pos (v : JSVal) : 0 < jsvalSize v := by
  cases v <;> simp [jsvalSize]

theorem entriesSize_jsEntries_lt (d : JSVal) :
    entriesSize (jsEntries d) < jsvalSize d := by
  cases d with
  | arr l => simp [jsEntries, jsvalSize, entriesSize_arrEntries]
  | obj fs => simp [jsEntries, jsvalSize, entriesSize_fields]
  | num n => simp [jsEntries, entriesSize, jsvalSize]
  | str s => simp [jsEntries, entriesSize, jsvalSize]
  | bool b => simp [jsEntries, entriesSize, jsvalSize]
  | null => simp [jsEntries, entriesSize, jsvalSize]
  | undef => simp [jsEntries, entriesSize, jsvalSize]
  | objRef => simp [jsEntries, entriesSize, jsvalSize]

theorem find?_modify_self (cs : Ctrls) (k : String) (f : Ctrl → Ctrl) :
    (cs.modify k f).find? k = (cs.find? k).map f := by
  cases cs with
  | nil => rfl
  | cons n c rest =>
    by_cases h : n = k <;>
      simp [Ctrls.modify, Ctrls.find?, h, find?_modify_self rest k f]

theorem find?_modify_other (cs : Ctrls) (k k' : String) (f : Ctrl → Ctrl)
    (h : k' ≠ k) : (cs.modify k f).find? k' = cs.find? k' := by
  cases cs with
  | nil => rfl
  | cons n c rest =>
    by_cases hn : n = k
    · subst hn
      simp [Ctrls.modify, Ctrls.find?, Ne.symm h]
    · by_cases hn' : n = k' <;>
        simp [Ctrls.modify, Ctrls.find?, hn, hn', h,
          find?_modify_other rest k k' f h]

theorem getAt_modAt_append (r : Ctrl) (q₁ q₂ : List String) (f : Ctrl → Ctrl) :
    Ctrl.getAt (r.modAt (q₁ ++ q₂) f) q₁ =
      (r.getAt q₁).map (fun c => c.modAt q₂ f) := by
  induction q₁ generalizing r with
  | nil => simp [Ctrl.getAt]
  | cons a rest ih =>
    cases r with
    | node d cs =>
      simp only [List.cons_append, Ctrl.modAt, Ctrl.getAt, Ctrl.children]
      rw [find?_modify_self]
      cases h : cs.find? a with
      | none => simp
      | some ch => simp [ih]

theorem getAt_modAt_self (r : Ctrl) (q : List String) (f : Ctrl → Ctrl) :
    Ctrl.getAt (r.modAt q f) q = (r.getAt q).map f := by
  have h := getAt_modAt_append r q [] f
  simpa [Ctrl.modAt] using h

/-! ## Listener-erasure: emits and `off` leave the data state intact -/

theorem stripLs_find? (cs : Ctrls) (k : String) :
    (stripLs cs).find? k = (cs.find? k).map stripL := by
  cases cs with
  | nil => rfl
  | cons n c rest =>
    by_cases h : n = k <;> simp [stripLs, Ctrls.find?, h, stripLs_find? rest k]

theorem getAt_stripL (r : Ctrl) (q : List String) :
    Ctrl.getAt (stripL r) q = (r.getAt q).map stripL := by
  cases q with
  | nil => simp [Ctrl.getAt]
  | cons a rest =>
    cases r with
    | node d cs =>
      simp only [Ctrl.getAt, stripL, Ctrl.children]
      rw [stripLs_find?]
      cases h : cs.find? a with
      | none => simp
      | some ch => simp [getAt_stripL ch rest]

theorem stripLs_modify (cs : Ctrls) (k : String) (g : Ctrl → Ctrl)
    (hg : ∀ c, stripL (g c) = stripL c) :
    stripLs (cs.modify k g) = stripLs cs := by
  cases cs with
  | nil => rfl
  | cons n c rest =>
    by_cases h : n = k <;>
      simp [Ctrls.modify, stripLs, h, hg, stripLs_modify rest k g hg]

theorem stripL_modAt (q : List String) (f : Ctrl → Ctrl)
    (hf : ∀ c, stripL (f c) = stripL c) (r : Ctrl) :
    stripL (r.modAt q f) = stripL r := by
  cases q with
  | nil =>
    cases r with
    | node d cs => exact hf (.node d cs)
  | cons a rest =>
    cases r with
    | node d cs =>
      simp only [Ctrl.modAt, stripL]
      rw [stripLs_modify cs a _ (fun c => stripL_modAt rest f hf c)]

theorem stripL_setListeners (c : Ctrl) (ls : List Listener) :
    stripL (c.setListeners ls) = stripL c := by
  cases c with
  | node d cs => rfl

theorem stripL_offAt (r : Ctrl) (tgt : List String) (e : String) (k : LKind) :
    stripL (offAt r tgt e k) = stripL r :=
  stripL_modAt tgt _ (fun c => stripL_setListeners c _) r

theorem stripL_emitStep (π : List String) (e : String) (p : JSVal)
    (acc : Ctrl × List Evt) (l : Listener) :
    stripL (emitStep π e p acc l).1 = stripL acc.1 := by
  cases l with
  | mk ev o k =>
    cases k with
    | user i => rfl
    | cleanup tgt ev2 oid => simp [emitStep, stripL_offAt]

theorem stripL_emitFold (π : List String) (e : String) (p : JSVal)
    (ls : List Listener) (acc : Ctrl × List Evt) :
    stripL (ls.foldl (emitStep π e p) acc).1 = stripL acc.1 := by
  induction ls generalizing acc with
  | nil => rfl
  | cons l rest ih => rw [List.foldl_cons, ih, stripL_emitStep]

theorem stripL_emitLocal (r : Ctrl) (π : List String) (e : String) (p : JSVal) :
    stripL (emitLocal r π e p).1 = stripL r := by
  unfold emitLocal
  cases h : r.getAt π with
  | none => rfl
  | some c =>
    simp only []
    rw [stripL_emitFold]
    exact stripL_modAt π _ (fun c => stripL_setListeners c _) r

theorem stripL_notifyRev (r : Ctrl) (ρ : List String) (δ : JSVal) :
    stripL (notifyRev r ρ δ).1 = stripL r := by
  rw [notifyRev]
  cases h : r.getAt ρ.reverse with
  | none => rfl
  | some c =>
    simp only []
    have hup : ∀ u : Ctrl × List Evt × Bool, stripL u.1 = stripL r →
        stripL
          (if u.2.2 then u
           else if c.shadowed "emit" then (u.1, u.2.1, true)
           else ((emitLocal u.1 ρ.reverse "data" δ).1,
             u.2.1 ++ (emitLocal u.1 ρ.reverse "data" δ).2, false)).1 = stripL r := by
      intro u hu
      by_cases h2 : u.2.2 <;> simp [h2, hu]
      by_cases h3 : c.shadowed "emit" <;> simp [h3, hu, stripL_emitLocal]
    apply hup
    cases ρ with
    | nil => simp
    | cons a ρp =>
      by_cases hh : c.hiddenFlag <;> simp [hh, stripL_notifyRev r ρp]

theorem stripL_notifyAt (r : Ctrl) (π : List String) (δ : JSVal) :
    stripL (notifyAt r π δ).1 = stripL r :=
  stripL_notifyRev r π.reverse δ

theorem stripL_data (d : CtrlData) (cs : Ctrls) :
    (stripL (.node d cs)).data = { d with listeners := [], bypassNotify := false } := rfl

theorem stripL_setBypass (c : Ctrl) (b : Bool) :
    stripL (c.setBypass b) = stripL c := by
  cases c with
  | node d cs => rfl

theorem stripL_children (d : CtrlData) (cs : Ctrls) :
    (stripL (.node d cs)).children = stripLs cs := rfl

theorem data_props_stripL (c : Ctrl) : (stripL c).data.props = c.data.props := by
  cases c with
  | node d cs => rfl

theorem data_flds_stripL (c : Ctrl) : (stripL c).data.flds = c.data.flds := by
  cases c with
  | node d cs => rfl

theorem data_acl_stripL (c : Ctrl) : (stripL c).data.acl = c.data.acl := by
  cases c with
  | node d cs => rfl

theorem data_cname_stripL (c : Ctrl) : (stripL c).data.cname = c.data.cname := by
  cases c with
  | node d cs => rfl

theorem getRest_stripL (c : Ctrl) (k : String) :
    (stripL c).getRest k = c.getRest k := by
  cases c with
  | node d cs =>
    simp only [Ctrl.getRest, stripL, Ctrl.children]
    rw [stripLs_find?]
    cases cs.find? k <;> rfl

theorem getP_stripL (c : Ctrl) (k : String) : (stripL c).getP k = c.getP k := by
  unfold Ctrl.getP
  rw [data_props_stripL, data_acl_stripL]
  cases propsFind c.data.props k with
  | none => exact getRest_stripL c k
  | some e =>
    simp only []
    by_cases ha : e.alive <;> simp [ha, getRest_stripL]

theorem shadowed_stripL (c : Ctrl) (m : String) :
    (stripL c).shadowed m = c.shadowed m := by
  cases c with
  | node d cs =>
    unfold Ctrl.shadowed
    rw [data_props_stripL, data_flds_stripL, stripL_children, stripLs_find?]
    cases h : cs.find? m <;> simp [Ctrl.children, h]

theorem hiddenFlag_stripL (c : Ctrl) : (stripL c).hiddenFlag = c.hiddenFlag := by
  unfold Ctrl.hiddenFlag
  rw [getP_stripL]

theorem rawProp_stripL (c : Ctrl) (k : String) :
    (stripL c).rawProp k = c.rawProp k := by
  unfold Ctrl.rawProp
  rw [data_props_stripL]

/-- From equal listener-stripped trees, equal property registries at every
path. -/
theorem propsAt_congr (r₁ r₂ : Ctrl) (h : stripL r₁ = stripL r₂)
    (q : List String) : propsAt r₁ q = propsAt r₂ q := by
  have hg : Option.map stripL (r₁.getAt q) = Option.map stripL (r₂.getAt q) := by
    have hq := congrArg (fun r => Ctrl.getAt r q) h
    simpa [getAt_stripL] using hq
  unfold propsAt
  have h1 : (r₁.getAt q).map (fun c => c.data.props)
      = (Option.map stripL (r₁.getAt q)).map (fun c => c.data.props) := by
    cases r₁.getAt q <;> simp [data_props_stripL]
  have h2 : (r₂.getAt q).map (fun c => c.data.props)
      = (Option.map stripL (r₂.getAt q)).map (fun c => c.data.props) := by
    cases r₂.getAt q <;> simp [data_props_stripL]
  rw [h1, h2, hg]

/-! ## Trace shape of a local emission -/

theorem emitFold_mem (π : List String) (e : String) (p : JSVal)
    (ls : List Listener) (acc : Ctrl × List Evt) (evt : Evt)
    (h : evt ∈ (ls.foldl (emitStep π e p) acc).2) :
    evt ∈ acc.2 ∨ ∃ k, evt = Evt.invoke π e k p := by
  induction ls generalizing acc with
  | nil => exact Or.inl h
  | cons l rest ih =>
    rw [List.foldl_cons] at h
    rcases ih _ h with h1 | h2
    · cases hk : l.kind with
      | user i =>
        simp [emitStep, hk] at h1
        rcases h1 with h1 | h1
        · exact Or.inl h1
        · exact Or.inr ⟨.user i, h1⟩
      | cleanup tgt ev oid =>
        simp [emitStep, hk] at h1
        rcases h1 with h1 | h1
        · exact Or.inl h1
        · exact Or.inr ⟨.cleanup tgt ev oid, h1⟩
    · exact Or.inr h2

/-- Every plain emission record in an `emitLocal` trace is the entry
record itself. -/
theorem emitLocal_emitE_mem (r : Ctrl) (π : List String) (e : String)
    (p : JSVal) (q : List String) (ev : String) (pl : JSVal)
    (h : Evt.emitE q ev pl ∈ (emitLocal r π e p).2) :
    q = π ∧ ev = e ∧ pl = p := by
  unfold emitLocal at h
  cases hg : r.getAt π with
  | none =>
    rw [hg] at h
    simp at h
  | some c =>
    rw [hg] at h
    simp only [] at h
    rcases emitFold_mem π e p _ _ _ h with h1 | ⟨k, h2⟩
    · simp at h1
      exact ⟨h1.1, h1.2.1, h1.2.2⟩
    · simp at h2

/-- When the target exists, the entry record is in the trace. -/
theorem emitLocal_self_mem (r : Ctrl) (π : List String) (e : String)
    (p : JSVal) (c : Ctrl) (hg : r.getAt π = some c) :
    Evt.emitE π e p ∈ (emitLocal r π e p).2 := by
  unfold emitLocal
  rw [hg]
  simp only []
  have : ∀ (ls : List Listener) (acc : Ctrl × List Evt), ∀ evt ∈ acc.2,
      evt ∈ (ls.foldl (emitStep π e p) acc).2 := by
    intro ls
    induction ls with
    | nil => intro acc evt h; exact h
    | cons l rest ih =>
      intro acc evt h
      rw [List.foldl_cons]
      apply ih
      cases hk : l.kind with
      | user i => simp [emitStep, hk]; exact Or.inl h
      | cleanup tgt ev oid => simp [emitStep, hk]; exact Or.inl h
  exact this _ _ _ (by simp)

/-! ## Modifier invariance and single-key decomposition of `Set` -/

theorem data_setBypass (c : Ctrl) (b : Bool) :
    (c.setBypass b).data = { c.data with bypassNotify := b } := by
  cases c with
  | node d cs => rfl

theorem children_setBypass (c : Ctrl) (b : Bool) :
    (c.setBypass b).children = c.children := by
  cases c with
  | node d cs => rfl

theorem data_setPropVal (c : Ctrl) (k : String) (v : JSVal) :
    (c.setPropVal k v).data = { c.data with props := propsSetVal c.data.props k v } := by
  cases c with
  | node d cs => rfl

theorem children_setPropVal (c : Ctrl) (k : String) (v : JSVal) :
    (c.setPropVal k v).children = c.children := by
  cases c with
  | node d cs => rfl

theorem shadowed_setBypass (c : Ctrl) (b : Bool) (m : String) :
    (c.setBypass b).shadowed m = c.shadowed m := by
  unfold Ctrl.shadowed
  rw [data_setBypass, children_setBypass]

theorem rawProp_setBypass (c : Ctrl) (b : Bool) (k : String) :
    (c.setBypass b).rawProp k = c.rawProp k := by
  unfold Ctrl.rawProp
  rw [data_setBypass]

theorem propsFind_setVal_other (ps : List PropEntry) (k k' : String) (v : JSVal)
    (h : k' ≠ k) : propsFind (propsSetVal ps k v) k' = propsFind ps k' := by
  induction ps with
  | nil => rfl
  | cons e rest ih =>
    by_cases he : e.pname = k
    · simp [propsSetVal, propsFind, he, Ne.symm h]
    · by_cases he' : e.pname = k' <;> simp [propsSetVal, propsFind, he, he', h, ih]

theorem propsFind_setVal_self (ps : List PropEntry) (k : String) (v : JSVal) :
    propsFind (propsSetVal ps k v) k = (propsFind ps k).map (fun e => { e with pval := v }) := by
  induction ps with
  | nil => rfl
  | cons e rest ih =>
    by_cases he : e.pname = k <;> simp [propsSetVal, propsFind, he, ih]

theorem setKeysF_nil (f : Nat) (env : Env) (x : Ctrl) (π : List String) :
    setKeysF f env x π [] = (x, [], false) := by
  cases f <;> rfl

/-- `setKeys` on a single entry is that entry's `setKey`. -/
theorem setKeysF_one (f : Nat) (env : Env) (root : Ctrl) (π : List String)
    (k : String) (v : JSVal) :
    setKeysF (f + 1) env root π [(k, v)] = setKeyF f env root π k v := by
  rcases hs : setKeyF f env root π k v with ⟨a, b, er⟩
  rw [setKeysF]
  simp only [hs]
  cases er with
  | true => simp
  | false => simp [setKeysF_nil]

/-- `Set` with a one-field object on a reachable, unshadowed control
processes exactly that key (with the wrapper's fuel threaded through). -/
theorem SetAt_single (env : Env) (root : Ctrl) (π : List String) (k : String)
    (v : JSVal) (c : Ctrl) (hc : root.getAt π = some c)
    (hs : c.shadowed "Set" = false) :
    SetAt env root π (.obj [(k, v)]) =
      setKeyF (4 * jsvalSize v + 10) env root π k v := by
  have hf : setFuel (.obj [(k, v)]) = (4 * jsvalSize v + 11) + 1 := by
    simp [setFuel, jsvalSize, jsfieldsSize]
    omega
  rw [SetAt, hf, SetF, hc]
  simp only [hs, Bool.false_eq_true, if_false]
  have h1 : (truthy (.obj [(k, v)]) && isObjectLike (.obj [(k, v)])) = true := rfl
  rw [h1]
  simp only [if_true, jsEntries]
  have h2 : (4 * jsvalSize v + 11) = (4 * jsvalSize v + 10) + 1 := by omega
  rw [h2, setKeysF_one]

theorem stripL_modAt_setBypass (r : Ctrl) (q : List String) (b : Bool) :
    stripL (r.modAt q (fun n => n.setBypass b)) = stripL r :=
  stripL_modAt q _ (fun c => stripL_setBypass c b) r

theorem propsAt_modAt_setPropVal (r : Ctrl) (q : List String) (k : String)
    (v : JSVal) :
    propsAt (r.modAt q (fun n => n.setPropVal k v)) q =
      (propsAt r q).map (fun ps => propsSetVal ps k v) := by
  unfold propsAt
  rw [getAt_modAt_self]
  cases r.getAt q with
  | none => rfl
  | some c => simp [data_setPropVal]

/-! ## Branch lemmas for a single `Set` key -/

/-- The settable-property branch of one `Set` key (non-nullish value):
raise `_bypassNotify`, then assign through `this[k] = v`. -/
theorem setKeyF_prop_branch (f : Nat) (env : Env) (root : Ctrl)
    (π : List String) (k : String) (v : JSVal) (c : Ctrl)
    (hc : root.getAt π = some c)
    (hk1 : k ≠ "remove") (hk2 : k.take 1 ≠ "_") (hk3 : k ≠ "controlType")
    (hdef : looseEq (c.getP k) .undef = false)
    (hst : settableType (c.getP k) = true)
    (hSet : chanPass (aclFind c.data.acl k) AclEntry.aclSet = true)
    (hvn : looseEq v .null = false) :
    setKeyF (f + 1) env root π k v =
      assignAt (root.modAt π (fun n => n.setBypass true)) π k v := by
  rw [setKeyF, hc]
  simp [hk1, hk2, hk3, hdef, hst, hSet, hvn]

/-- `this[k] = v` runs the generated setter when `k` is a live accessor. -/
theorem assignAt_alive (root : Ctrl) (π : List String) (k : String) (v : JSVal)
    (c : Ctrl) (e : PropEntry) (hc : root.getAt π = some c)
    (he : propsFind c.data.props k = some e) (hal : e.alive = true) :
    assignAt root π k v = setterAt root π k v := by
  have h0 : assignAt root π k v =
      (match propsFind c.data.props k with
       | some e =>
         if e.alive then setterAt root π k v
         else (root.modAt π (fun n => n.setFld k v), [], false)
       | none => (root.modAt π (fun n => n.setFld k v), [], false)) := by
    rw [assignAt, hc]
  rw [h0, he]
  simp [hal]

/-- Accepted setter write under `_bypassNotify`: store the value, skip
`NotifyProperty` (merely clearing the flag), emit the property event. -/
theorem setterAt_bypassed (root : Ctrl) (π : List String) (k : String)
    (v : JSVal) (c : Ctrl) (hc : root.getAt π = some c)
    (hneq : looseEq (c.rawProp k) v = false)
    (hsetter : chanPass (aclFind c.data.acl k) AclEntry.aclSetter = true)
    (hbp : c.data.bypassNotify = true)
    (hem : c.shadowed "emit" = false) :
    setterAt root π k v =
      (((emitLocal ((root.modAt π (fun n => n.setPropVal k v)).modAt π
          (fun n => n.setBypass false)) π k v).1).modAt π
        (fun n => n.setBypass false),
       (emitLocal ((root.modAt π (fun n => n.setPropVal k v)).modAt π
          (fun n => n.setBypass false)) π k v).2, false) := by
  rw [setterAt, hc]
  simp [hneq, hsetter, hbp, hem]

/-- Accepted setter write without the bypass: store, run `NotifyProperty`
(assumed not to throw), emit the property event. -/
theorem setterAt_notify (root : Ctrl) (π : List String) (k : String)
    (v : JSVal) (c : Ctrl) (hc : root.getAt π = some c)
    (hneq : looseEq (c.rawProp k) v = false)
    (hsetter : chanPass (aclFind c.data.acl k) AclEntry.aclSetter = true)
    (hbp : c.data.bypassNotify = false)
    (hnp : c.shadowed "NotifyProperty" = false)
    (hem : c.shadowed "emit" = false)
    (hnerr : (NotifyPropertyAt (root.modAt π (fun n => n.setPropVal k v)) π k).2.2
      = false) :
    setterAt root π k v =
      (((emitLocal (NotifyPropertyAt (root.modAt π
            (fun n => n.setPropVal k v)) π k).1 π k v).1).modAt π
          (fun n => n.setBypass false),
        (NotifyPropertyAt (root.modAt π (fun n => n.setPropVal k v)) π k).2.1 ++
          (emitLocal (NotifyPropertyAt (root.modAt π
            (fun n => n.setPropVal k v)) π k).1 π k v).2, false) := by
  rw [setterAt, hc]
  simp [hneq, hsetter, hbp, hnp, hem, hnerr]

theorem getP_alive_pass (c : Ctrl) (k : String) (e : PropEntry)
    (he : propsFind c.data.props k = some e) (hal : e.alive = true)
    (hget : chanPass (aclFind c.data.acl k) AclEntry.aclGetter = true) :
    c.getP k = e.pval := by
  unfold Ctrl.getP
  rw [he]
  simp [hal, hget]

theorem rawProp_of_find (c : Ctrl) (k : String) (e : PropEntry)
    (he : propsFind c.data.props k = some e) : c.rawProp k = e.pval := by
  unfold Ctrl.rawProp
  rw [he]

theorem fldsFind_objSet (acc : List (String × JSVal)) (k k' : String)
    (v : JSVal) :
    fldsFind (objSet acc k v) k' = if k' = k then some v else fldsFind acc k' := by
  induction acc with
  | nil =>
    by_cases h : k' = k
    · simp [objSet, fldsFind, h]
    · simp [objSet, fldsFind, h, Ne.symm h]
  | cons p rest ih =>
    obtain ⟨a, b⟩ := p
    by_cases ha : a = k
    · subst ha
      simp only [objSet, if_pos rfl]
      by_cases h' : k' = a
      · simp [fldsFind, h']
      · simp [fldsFind, h', Ne.symm h']
    · simp only [objSet, if_neg ha]
      by_cases h' : k' = a
      · subst h'
        have hk : ¬k' = k := fun hh => ha hh
        simp [fldsFind, hk]
      · simp [fldsFind, h', Ne.symm h', ih]

theorem getOwnFold_untouched (acl : List (String × AclEntry)) (sparse : Bool)
    (ps : List PropEntry) (acc : List (String × JSVal)) (key : String)
    (h : ∀ p ∈ ps, p.pname ≠ key) :
    fldsFind (ps.foldl (getOwnStep acl sparse) acc) key = fldsFind acc key := by
  induction ps generalizing acc with
  | nil => rfl
  | cons e rest ih =>
    rw [List.foldl_cons]
    rw [ih _ (fun p hp => h p (List.mem_cons_of_mem _ hp))]
    have hne : e.pname ≠ key := h e (List.mem_cons_self _ _)
    unfold getOwnStep
    by_cases h1 : getPassBuggy (aclFind acl e.pname) <;>
      by_cases h2 : (sparse && !(looseEq e.pval (.str ""))) || !sparse <;>
        simp [h1, h2, fldsFind_objSet, Ne.symm hne]

theorem getOwnProps_find (acl : List (String × AclEntry)) (sparse : Bool)
    (ps : List PropEntry) (acc : List (String × JSVal)) (e : PropEntry)
    (he : e ∈ ps) (hnd : (ps.map PropEntry.pname).Nodup)
    (hacc : fldsFind acc e.pname = none) :
    fldsFind (ps.foldl (getOwnStep acl sparse) acc) e.pname =
      if getPassBuggy (aclFind acl e.pname) &&
         ((sparse && !(looseEq e.pval (.str ""))) || !sparse) then some e.pval
      else none := by
  induction ps generalizing acc with
  | nil => cases he
  | cons p rest ih =>
    rw [List.foldl_cons]
    rw [List.map_cons, List.nodup_cons] at hnd
    rcases List.mem_cons.mp he with rfl | hrest
    · have hnotin : ∀ q ∈ rest, q.pname ≠ e.pname := by
        intro q hq hqe
        exact hnd.1 (hqe ▸ List.mem_map_of_mem PropEntry.pname hq)
      rw [getOwnFold_untouched _ _ _ _ _ hnotin]
      unfold getOwnStep
      by_cases h1 : getPassBuggy (aclFind acl e.pname) <;>
        by_cases h2 : (sparse && !(looseEq e.pval (.str ""))) || !sparse <;>
          simp [h1, h2, fldsFind_objSet, hacc]
    · apply ih _ hrest hnd.2
      have hpe : p.pname ≠ e.pname := by
        intro hh
        exact hnd.1 (hh ▸ List.mem_map_of_mem PropEntry.pname hrest)
      unfold getOwnStep
      by_cases h1 : getPassBuggy (aclFind acl p.pname) <;>
        by_cases h2 : (sparse && !(looseEq p.pval (.str ""))) || !sparse <;>
          simp [h1, h2, fldsFind_objSet, hacc, Ne.symm hpe]

/-! ## Claims -/

/-- C9: Assigning, through the generated setter, a value loosely equal to
the currently stored registry value is a complete no-op: the stored value
is unchanged, no property-named event is emitted and no notification is
produced (the trace is empty, no error); the only state touched is the
transient `_bypassNotify` flag, which the setter's trailing statement
always clears. -/
theorem C9_equal_value_write_noop (root : Ctrl) (π : List String) (k : String)
    (v : JSVal) (c : Ctrl) (hc : root.getAt π = some c)
    (heq : looseEq (c.rawProp k) v = true) :
    setterAt root π k v = (root.modAt π (fun n => n.setBypass false), [], false) ∧
    propsAt (setterAt root π k v).1 π = propsAt root π := by
  have h1 : setterAt root π k v =
      (root.modAt π (fun n => n.setBypass false), [], false) := by
    rw [setterAt, hc]
    simp [heq]
  refine ⟨h1, ?_⟩
  rw [h1]
  exact propsAt_congr _ _ (stripL_modAt_setBypass root π false) π

theorem C9_witness :
    setterAt c9demo [] "p" (.str "1") =
      (c9demo.modAt [] (fun n => n.setBypass false), [], false) ∧
    propsAt (setterAt c9demo [] "p" (.str "1")).1 [] = propsAt c9demo [] :=
  C9_equal_value_write_noop c9demo [] "p" (.str "1") c9demo rfl rfl

/-- C4 counterexample: the sparse filter is the JS loose comparison
`this._properties[k] != ''`, and the number 0 is loosely equal to the
empty string, so a property with value 0 — which the claim says is
returned — is omitted from `Get({sparse: true})` (it does appear with
`sparse: false`). -/
theorem C4_counterexample :
    Ctrl.Get c4demo true = .ok [] ∧
    Ctrl.Get c4demo false = .ok [("p", .num 0)] := by
  exact ⟨rfl, rfl⟩

/-- C4 (amended): for a property admitted by `Get`'s channel check, the
sparse filter omits it exactly when its value is *loosely* equal to the
empty string (so not only the empty string but also 0, false and the
empty array are omitted); with `sparse: false` every admitted property is
returned regardless of value. -/
theorem C4_amended_sparse_loose (d : CtrlData) (sparse : Bool) (e : PropEntry)
    (he : e ∈ d.props) (hnd : (d.props.map PropEntry.pname).Nodup)
    (hacl : getPassBuggy (aclFind d.acl e.pname) = true) :
    Ctrl.Get (.node d .nil) sparse = .ok (getOwnProps d sparse) ∧
    fldsFind (getOwnProps d sparse) e.pname =
      (if (sparse && !(looseEq e.pval (.str ""))) || !sparse then some e.pval
       else none) := by
  constructor
  · rfl
  · have h := getOwnProps_find d.acl sparse d.props [] e he hnd rfl
    rw [getOwnProps, h, hacl]
    simp

theorem C4_witness :
    Ctrl.Get (.node c4wData .nil) true = .ok (getOwnProps c4wData true) ∧
    fldsFind (getOwnProps c4wData true) "q" =
      (if (true && !(looseEq (.str "v") (.str ""))) || !true then some (.str "v")
       else none) :=
  C4_amended_sparse_loose c4wData true ⟨"q", .str "v", true⟩
    (List.mem_singleton.mpr rfl) (by simp [c4wData]) rfl

/-- C1: `Get`'s channel check compares the whole ACL *entry* — an object —
against the string `'public'` instead of the entry's `Get` field, so a
property whose access control was set to `{Get: 'public'}` (which the
claim and the `SetAccess` documentation say behaves like the default) is
wrongly excluded from `Get` output, while `NotifyProperty`'s correctly
written check still includes it in the delta. -/
theorem C1_get_public_channel_bug :
    Ctrl.Get c1demo false = .ok [] ∧
    notifyDelta1 c1demo "windows" = .obj [("windows", .num 2)] ∧
    chanPass (aclFind c1demo.data.acl "windows") AclEntry.aclGet = true ∧
    getPassBuggy (aclFind c1demo.data.acl "windows") = false := by
  exact ⟨rfl, rfl, rfl, rfl⟩

/-- C2 counterexample: on the root (no parent), `Set({remove: true})`
throws a TypeError (`this._parent` is undefined) instead of completing as
a no-op; and the check `data[k] == true` is loose, so `remove: 1` — not
exactly `true` — also removes the child. -/
theorem C2_counterexample :
    (SetAt envEmpty c3root [] (.obj [("remove", .bool true)])).2.2 = true ∧
    (SetAt envEmpty c3root ["a"] (.obj [("remove", .num 1)])).2.2 = false ∧
    (SetAt envEmpty c3root ["a"] (.obj [("remove", .num 1)])).1.getAt ["a"] = none := by
  exact ⟨rfl, rfl, rfl⟩

/-- C2 (amended): processing the key `remove` in `Set` requests removal
from the parent exactly when the value is *loosely* equal to `true`
(e.g. also for 1 and "1"); with a loose-true value on a parentless node
the call throws a TypeError (aborting the rest of the `Set`) rather than
completing as a no-op. -/
theorem C2_amended_remove_semantics (env : Env) (root : Ctrl)
    (π : List String) (v : JSVal) (c : Ctrl)
    (hc : root.getAt π = some c) (hs : c.shadowed "Set" = false) :
    (looseEq v (.bool true) = false →
      SetAt env root π (.obj [("remove", v)]) = (root, [], false)) ∧
    (looseEq v (.bool true) = true → π = [] →
      SetAt env root π (.obj [("remove", v)]) = (root, [], true)) ∧
    (∀ par, looseEq v (.bool true) = true → π ≠ [] →
      root.getAt π.dropLast = some par →
      par.shadowed "RemoveChild" = false →
      SetAt env root π (.obj [("remove", v)]) =
        RemoveChildAt root π.dropLast c.data.cname) := by
  have hstep : SetAt env root π (.obj [("remove", v)]) =
      setKeyF (4 * jsvalSize v + 10) env root π "remove" v :=
    SetAt_single env root π "remove" v c hc hs
  have hsucc : 4 * jsvalSize v + 10 = (4 * jsvalSize v + 9) + 1 := by omega
  refine ⟨?_, ?_, ?_⟩
  · intro hv
    rw [hstep, hsucc, setKeyF, hc]
    simp [hv]
  · intro hv hpi
    rw [hstep, hsucc, setKeyF, hc]
    simp [hv, hpi]
  · intro par hv hpi hpar hsh
    rw [hstep, hsucc, setKeyF, hc]
    simp [hv, hpi, hpar, hsh]

theorem C2_witness :
    (looseEq (.str "x") (.bool true) = false →
      SetAt envEmpty c3root ["a"] (.obj [("remove", .str "x")]) =
        (c3root, [], false)) ∧
    (looseEq (.str "x") (.bool true) = true → (["a"] : List String) = [] →
      SetAt envEmpty c3root ["a"] (.obj [("remove", .str "x")]) =
        (c3root, [], true)) ∧
    (∀ par, looseEq (.str "x") (.bool true) = true → (["a"] : List String) ≠ [] →
      c3root.getAt (["a"] : List String).dropLast = some par →
      par.shadowed "RemoveChild" = false →
      SetAt envEmpty c3root ["a"] (.obj [("remove", .str "x")]) =
        RemoveChildAt c3root (["a"] : List String).dropLast c3child.data.cname) :=
  C2_amended_remove_semantics envEmpty c3root ["a"] (.str "x") c3child rfl rfl

/-- C3 counterexample: a `Set`-driven write of 5 to property `p` (stored
value 1, no ACL) assigns the value, but the `_bypassNotify` mark makes the
generated setter skip `NotifyProperty` entirely: the whole trace is the
single property-named emission — there is no local `data` event and
nothing is bubbled, contradicting the claim that the Notification Router
still fires. -/
theorem C3_counterexample :
    (SetAt envEmpty c3root ["a"] (.obj [("p", .num 5)])).2.1 =
      [Evt.emitE ["a"] "p" (.num 5)] ∧
    (SetAt envEmpty c3root ["a"] (.obj [("p", .num 5)])).2.2 = false ∧
    propsAt (SetAt envEmpty c3root ["a"] (.obj [("p", .num 5)])).1 ["a"] =
      some [⟨"controlType", .str "ctl", true⟩, ⟨"hideData", .bool false, true⟩,
            ⟨"p", .num 5, true⟩] := by
  exact ⟨rfl, rfl, rfl⟩

/-- C3 (amended): a `Set`-driven write to an existing observable property
whose new value loosely differs from the stored value, with the `Set` and
`setter` channels open, assigns the value through the generated setter and
emits the property-named event, but the parent-driven `_bypassNotify` mark
suppresses the Notification Router entirely: no `data` event is produced
at any node and nothing bubbles toward the root. -/
theorem C3_amended_set_write_suppresses_notify (env : Env) (root : Ctrl)
    (π : List String) (k : String) (v : JSVal) (c : Ctrl) (e : PropEntry)
    (hc : root.getAt π = some c)
    (hsSet : c.shadowed "Set" = false)
    (hk1 : k ≠ "remove") (hk2 : k.take 1 ≠ "_") (hk3 : k ≠ "controlType")
    (hkd : k ≠ "data")
    (he : propsFind c.data.props k = some e) (hal : e.alive = true)
    (hget : chanPass (aclFind c.data.acl k) AclEntry.aclGetter = true)
    (hud : looseEq e.pval .undef = false)
    (hst : settableType e.pval = true)
    (hSet : chanPass (aclFind c.data.acl k) AclEntry.aclSet = true)
    (hsetter : chanPass (aclFind c.data.acl k) AclEntry.aclSetter = true)
    (hneq : looseEq e.pval v = false)
    (hvn : looseEq v .null = false)
    (hem : c.shadowed "emit" = false) :
    (SetAt env root π (.obj [(k, v)])).2.2 = false ∧
    propsAt (SetAt env root π (.obj [(k, v)])).1 π =
      some (propsSetVal c.data.props k v) ∧
    Evt.emitE π k v ∈ (SetAt env root π (.obj [(k, v)])).2.1 ∧
    (∀ q pl, Evt.emitE q "data" pl ∉ (SetAt env root π (.obj [(k, v)])).2.1) := by
  have hgp : c.getP k = e.pval := getP_alive_pass c k e he hal hget
  have hsucc : 4 * jsvalSize v + 10 = (4 * jsvalSize v + 9) + 1 := by omega
  have h1 : SetAt env root π (.obj [(k, v)]) =
      setKeyF ((4 * jsvalSize v + 9) + 1) env root π k v := by
    rw [SetAt_single env root π k v c hc hsSet, hsucc]
  have h2 : setKeyF ((4 * jsvalSize v + 9) + 1) env root π k v =
      assignAt (root.modAt π (fun n => n.setBypass true)) π k v := by
    apply setKeyF_prop_branch _ env root π k v c hc hk1 hk2 hk3
    · rw [hgp]; exact hud
    · rw [hgp]; exact hst
    · exact hSet
    · exact hvn
  have hcb : (root.modAt π (fun n => n.setBypass true)).getAt π =
      some (c.setBypass true) := by
    rw [getAt_modAt_self, hc]
    rfl
  have hpf : propsFind (c.setBypass true).data.props k = some e := by
    rw [data_setBypass]
    exact he
  have h3 : assignAt (root.modAt π (fun n => n.setBypass true)) π k v =
      setterAt (root.modAt π (fun n => n.setBypass true)) π k v :=
    assignAt_alive _ π k v (c.setBypass true) e hcb hpf hal
  have hraw : (c.setBypass true).rawProp k = e.pval := by
    unfold Ctrl.rawProp
    rw [data_setBypass]
    rw [he]
  have h4 := setterAt_bypassed (root.modAt π (fun n => n.setBypass true)) π k v
    (c.setBypass true) hcb (by rw [hraw]; exact hneq)
    (by rw [data_setBypass]; exact hsetter)
    (by rw [data_setBypass])
    (by rw [shadowed_setBypass]; exact hem)
  rw [h1, h2, h3, h4]
  set r2 := ((root.modAt π (fun n => n.setBypass true)).modAt π
      (fun n => n.setPropVal k v)).modAt π (fun n => n.setBypass false) with hr2
  have hr2get : r2.getAt π = some
      (((c.setBypass true).setPropVal k v).setBypass false) := by
    rw [hr2, getAt_modAt_self, getAt_modAt_self, getAt_modAt_self, hc]
    rfl
  refine ⟨rfl, ?_, ?_, ?_⟩
  · have hs1 : stripL ((emitLocal r2 π k v).1.modAt π
        (fun n => n.setBypass false)) = stripL r2 := by
      rw [stripL_modAt_setBypass, stripL_emitLocal]
    have hps : propsAt ((emitLocal r2 π k v).1.modAt π
        (fun n => n.setBypass false)) π = propsAt r2 π :=
      propsAt_congr _ _ hs1 π
    rw [hps, hr2]
    have hps2 : propsAt (((root.modAt π (fun n => n.setBypass true)).modAt π
        (fun n => n.setPropVal k v)).modAt π (fun n => n.setBypass false)) π =
        propsAt ((root.modAt π (fun n => n.setBypass true)).modAt π
          (fun n => n.setPropVal k v)) π :=
      propsAt_congr _ _ (stripL_modAt_setBypass _ π false) π
    rw [hps2, propsAt_modAt_setPropVal]
    have hps3 : propsAt (root.modAt π (fun n => n.setBypass true)) π =
        propsAt root π :=
      propsAt_congr _ _ (stripL_modAt_setBypass _ π true) π
    rw [hps3]
    unfold propsAt
    rw [hc]
    rfl
  · exact emitLocal_self_mem r2 π k v _ hr2get
  · intro q pl hmem
    have h := emitLocal_emitE_mem r2 π k v q "data" pl hmem
    exact hkd h.2.1.symm

theorem C3_amended_witness :
    (SetAt envEmpty c3root ["a"] (.obj [("p", .num 7)])).2.2 = false ∧
    propsAt (SetAt envEmpty c3root ["a"] (.obj [("p", .num 7)])).1 ["a"] =
      some (propsSetVal c3child.data.props "p" (.num 7)) ∧
    Evt.emitE ["a"] "p" (.num 7) ∈
      (SetAt envEmpty c3root ["a"] (.obj [("p", .num 7)])).2.1 ∧
    (∀ q pl, Evt.emitE q "data" pl ∉
      (SetAt envEmpty c3root ["a"] (.obj [("p", .num 7)])).2.1) :=
  C3_amended_set_write_suppresses_notify envEmpty c3root ["a"] "p" (.num 7)
    c3child ⟨"p", .num 1, true⟩ rfl rfl (by decide) (by decide) (by decide)
    (by decide) rfl rfl rfl rfl rfl rfl rfl rfl rfl rfl

/-- C10: a `{getter: 'none'}` entry makes the generated getter return
undefined; consequently `NotifyProperty` omits the property from its
delta, and a `Set` call containing that key no longer treats it as an
existing property: the settable-property branch is skipped, and the key is
routed to the child-forwarding branch (when a child of that name exists)
or to the `_createControl` branch (when the data carries a
`controlType`). -/
theorem C10_getter_none_consequences (c : Ctrl) (k : String) (a : AclEntry)
    (e : PropEntry) (hp : propsFind c.data.props k = some e)
    (hal : e.alive = true) (ha : aclFind c.data.acl k = some a)
    (hg : a.aclGetter = some "none") :
    c.getP k = .undef ∧
    notifyDelta1 c k = .obj [] ∧
    (∀ f env root π v ch, root.getAt π = some c → k ≠ "remove" →
      k.take 1 ≠ "_" → k ≠ "controlType" →
      c.children.find? k = some ch →
      setKeyF (f + 1) env root π k v = SetF f env root (π ++ [k]) v) ∧
    (∀ f env root π v, root.getAt π = some c → k ≠ "remove" →
      k.take 1 ≠ "_" → k ≠ "controlType" →
      c.children.find? k = none →
      looseEq v .null = false → looseEq (getField v "controlType") .undef = false →
      setKeyF (f + 1) env root π k v = createControlF f env root π v k) := by
  have hgp : c.getP k = .undef := by
    unfold Ctrl.getP
    rw [hp]
    simp only [hal, if_true]
    have hcp : chanPass (aclFind c.data.acl k) AclEntry.aclGetter = false := by
      rw [ha]
      simp [chanPass, hg]
    rw [hcp]
    rfl
  have hguard : looseEq (c.getP k) .undef = true := by
    rw [hgp]
    rfl
  refine ⟨hgp, ?_, ?_, ?_⟩
  · unfold notifyDelta1
    rw [hguard]
    rfl
  · intro f env root π v ch hc hk1 hk2 hk3 hch
    rw [setKeyF, hc]
    simp [hk1, hk2, hk3, hguard, hch]
  · intro f env root π v hc hk1 hk2 hk3 hch hvn hct
    rw [setKeyF, hc]
    simp [hk1, hk2, hk3, hguard, hch, hvn, hct]

theorem C10_witness :
    c10demo.getP "w" = .undef ∧
    notifyDelta1 c10demo "w" = .obj [] ∧
    setKeyF 1 envEmpty c10demo [] "w" (.num 9) =
      SetF 0 envEmpty c10demo ["w"] (.num 9) ∧
    setKeyF 1 envEmpty c10noKid [] "w" (.obj [("controlType", .str "room")]) =
      createControlF 0 envEmpty c10noKid [] (.obj [("controlType", .str "room")]) "w" := by
  have h1 := C10_getter_none_consequences c10demo "w" aclGetterNone
    ⟨"w", .num 3, true⟩ rfl rfl rfl rfl
  have h2 := C10_getter_none_consequences c10noKid "w" aclGetterNone
    ⟨"w", .num 3, true⟩ rfl rfl rfl rfl
  refine ⟨h1.1, h1.2.1, ?_, ?_⟩
  · exact h1.2.2.1 0 envEmpty c10demo [] (.num 9) c10kid rfl (by decide)
      (by decide) (by decide) rfl
  · exact h2.2.2.2 0 envEmpty c10noKid [] (.obj [("controlType", .str "room")])
      rfl (by decide) (by decide) (by decide) rfl rfl rfl

theorem data_modAt_cons (c : Ctrl) (x : String) (xs : List String)
    (f : Ctrl → Ctrl) : (c.modAt (x :: xs) f).data = c.data := by
  cases c with
  | node d cs => rfl

theorem children_find_modAt_cons (c : Ctrl) (x : String) (xs : List String)
    (f : Ctrl → Ctrl) (k : String) :
    ((c.modAt (x :: xs) f).children.find? k).isSome =
      ((c.children).find? k).isSome := by
  cases c with
  | node d cs =>
    show ((cs.modify x (fun ch => ch.modAt xs f)).find? k).isSome = _
    by_cases hk : k = x
    · subst hk
      rw [find?_modify_self]
      cases h : cs.find? k <;> simp [Ctrl.children, h]
    · rw [find?_modify_other _ _ _ _ hk]
      rfl

theorem getRest_modAt_cons (c : Ctrl) (x : String) (xs : List String)
    (f : Ctrl → Ctrl) (k : String) :
    (c.modAt (x :: xs) f).getRest k = c.getRest k := by
  unfold Ctrl.getRest
  rw [data_modAt_cons]
  have h := children_find_modAt_cons c x xs f k
  cases h1 : ((c.modAt (x :: xs) f).children).find? k <;>
    cases h2 : (c.children).find? k <;> simp [h1, h2] at h ⊢

theorem getP_modAt_cons (c : Ctrl) (x : String) (xs : List String)
    (f : Ctrl → Ctrl) (k : String) :
    (c.modAt (x :: xs) f).getP k = c.getP k := by
  unfold Ctrl.getP
  rw [data_modAt_cons]
  cases propsFind c.data.props k with
  | none => exact getRest_modAt_cons c x xs f k
  | some e =>
    simp only []
    by_cases ha : e.alive <;> simp [ha, getRest_modAt_cons]

theorem hiddenFlag_modAt_cons (c : Ctrl) (x : String) (xs : List String)
    (f : Ctrl → Ctrl) :
    (c.modAt (x :: xs) f).hiddenFlag = c.hiddenFlag := by
  unfold Ctrl.hiddenFlag
  rw [getP_modAt_cons]

theorem shadowed_modAt_cons (c : Ctrl) (x : String) (xs : List String)
    (f : Ctrl → Ctrl) (m : String) :
    (c.modAt (x :: xs) f).shadowed m = c.shadowed m := by
  unfold Ctrl.shadowed
  rw [data_modAt_cons]
  have h := children_find_modAt_cons c x xs f m
  cases h1 : ((c.modAt (x :: xs) f).children).find? m <;>
    cases h2 : (c.children).find? m <;> simp [h1, h2] at h ⊢

theorem getAt_isSome_congr (r₁ r₂ : Ctrl) (h : stripL r₁ = stripL r₂)
    (q : List String) : (r₁.getAt q).isSome = (r₂.getAt q).isSome := by
  have hg : Option.map stripL (r₁.getAt q) = Option.map stripL (r₂.getAt q) := by
    have hq := congrArg (fun r => Ctrl.getAt r q) h
    simpa [getAt_stripL] using hq
  cases h1 : r₁.getAt q <;> cases h2 : r₂.getAt q <;> simp [h1, h2] at hg ⊢

theorem looseEq_undef_right (x : JSVal) : looseEq x .undef = isNullish x := by
  cases x <;> rfl

theorem getRest_setPropVal (c : Ctrl) (p : String) (v : JSVal) (k : String) :
    (c.setPropVal p v).getRest k = c.getRest k := by
  unfold Ctrl.getRest
  rw [data_setPropVal, children_setPropVal]

theorem getP_setPropVal_other (c : Ctrl) (p : String) (v : JSVal) (k : String)
    (h : k ≠ p) : (c.setPropVal p v).getP k = c.getP k := by
  unfold Ctrl.getP
  rw [data_setPropVal]
  simp only []
  rw [propsFind_setVal_other _ _ _ _ h]
  cases propsFind c.data.props k with
  | none => exact getRest_setPropVal c p v k
  | some e =>
    simp only []
    by_cases ha : e.alive <;> simp [ha, getRest_setPropVal]

theorem hiddenFlag_setPropVal (c : Ctrl) (p : String) (v : JSVal)
    (h : p ≠ "hideData") :
    (c.setPropVal p v).hiddenFlag = c.hiddenFlag := by
  unfold Ctrl.hiddenFlag
  rw [getP_setPropVal_other c p v _ (Ne.symm h)]

theorem getP_setPropVal_self (c : Ctrl) (p : String) (v : JSVal)
    (e : PropEntry) (he : propsFind c.data.props p = some e)
    (hal : e.alive = true)
    (hacl : chanPass (aclFind c.data.acl p) AclEntry.aclGetter = true) :
    (c.setPropVal p v).getP p = v := by
  unfold Ctrl.getP
  rw [data_setPropVal]
  simp only []
  rw [propsFind_setVal_self, he]
  simp [hal, hacl]

theorem shadowed_setPropVal (c : Ctrl) (p : String) (v : JSVal) (m : String) :
    (c.setPropVal p v).shadowed m = c.shadowed m := by
  unfold Ctrl.shadowed
  rw [data_setPropVal, children_setPropVal]
  simp only []
  by_cases hm : m = p
  · subst hm
    rw [propsFind_setVal_self]
    cases propsFind c.data.props m <;> rfl
  · rw [propsFind_setVal_other _ _ _ _ hm]

/-- C5: in a 3-level tree root → A → B (A, B wrapped controls named by
their keys) with neither A nor B hidden and no ACL entry for `p`,
directly assigning a loosely different, non-nullish value `v` to B's
observable property `p` completes without error, emits a local `data`
event on B carrying the raw delta `{p: v}`, and emits a `data` event on
the root carrying the delta nested as `{A: {B: {p: v}}}`. -/
theorem C5_three_level_bubbling (root A B : Ctrl) (a b p : String) (v : JSVal)
    (e : PropEntry)
    (hA : root.getAt [a] = some A)
    (hB : root.getAt [a, b] = some B)
    (hcnA : A.data.cname = a)
    (hcnB : B.data.cname = b)
    (he : propsFind B.data.props p = some e) (hal : e.alive = true)
    (hacl : aclFind B.data.acl p = none)
    (hpd : p ≠ "hideData")
    (hneq : looseEq e.pval v = false)
    (hv : isNullish v = false)
    (hbp : B.data.bypassNotify = false)
    (hhB : B.hiddenFlag = false) (hhA : A.hiddenFlag = false)
    (hsnp : B.shadowed "NotifyProperty" = false)
    (hseB : B.shadowed "emit" = false)
    (hseA : A.shadowed "emit" = false)
    (hseR : root.shadowed "emit" = false) :
    (setterAt root [a, b] p v).2.2 = false ∧
    Evt.emitE [a, b] "data" (.obj [(p, v)]) ∈ (setterAt root [a, b] p v).2.1 ∧
    Evt.emitE [] "data" (.obj [(a, .obj [(b, .obj [(p, v)])])]) ∈
      (setterAt root [a, b] p v).2.1 := by
  have hF1 : (root.modAt [a, b] (fun n => n.setPropVal p v)).getAt [a, b] =
      some (B.setPropVal p v) := by
    rw [getAt_modAt_self, hB]
    rfl
  have hsplit : ([a, b] : List String) = [a] ++ [b] := rfl
  have hF7 : (root.modAt [a, b] (fun n => n.setPropVal p v)).getAt [a] =
      some (A.modAt [b] (fun n => n.setPropVal p v)) := by
    rw [hsplit, getAt_modAt_append, hA]
    rfl
  have hB1cn : (B.setPropVal p v).data.cname = b := by
    rw [data_setPropVal]
    exact hcnB
  have hB1h : (B.setPropVal p v).hiddenFlag = false := by
    rw [hiddenFlag_setPropVal _ _ _ hpd]
    exact hhB
  have hB1e : (B.setPropVal p v).shadowed "emit" = false := by
    rw [shadowed_setPropVal]
    exact hseB
  have hgetp : (B.setPropVal p v).getP p = v :=
    getP_setPropVal_self B p v e he hal (by rw [hacl]; rfl)
  have hB1get : chanPass (aclFind (B.setPropVal p v).data.acl p)
      AclEntry.aclGet = true := by
    rw [data_setPropVal]
    simp only []
    rw [hacl]
    rfl
  have hdelta : notifyDelta1 (B.setPropVal p v) p = .obj [(p, v)] := by
    unfold notifyDelta1
    rw [hgetp, looseEq_undef_right, hv, hB1get]
    rfl
  have hA1h : (A.modAt [b] (fun n => n.setPropVal p v)).hiddenFlag = false := by
    rw [hiddenFlag_modAt_cons]
    exact hhA
  have hA1e : (A.modAt [b] (fun n => n.setPropVal p v)).shadowed "emit"
      = false := by
    rw [shadowed_modAt_cons]
    exact hseA
  have hA1cn : (A.modAt [b] (fun n => n.setPropVal p v)).data.cname = a := by
    rw [data_modAt_cons]
    exact hcnA
  have hr1e : (root.modAt [a, b] (fun n => n.setPropVal p v)).shadowed "emit"
      = false := by
    show (root.modAt (a :: [b]) (fun n => n.setPropVal p v)).shadowed "emit" = false
    rw [shadowed_modAt_cons]
    exact hseR
  -- level []: root's own data emission
  have hR0 : notifyRev (root.modAt [a, b] (fun n => n.setPropVal p v)) []
      (.obj [(a, .obj [(b, .obj [(p, v)])])]) =
      ((emitLocal (root.modAt [a, b] (fun n => n.setPropVal p v)) []
          "data" (.obj [(a, .obj [(b, .obj [(p, v)])])])).1,
       [] ++ (emitLocal (root.modAt [a, b] (fun n => n.setPropVal p v)) []
          "data" (.obj [(a, .obj [(b, .obj [(p, v)])])])).2, false) := by
    rw [notifyRev]
    simp [Ctrl.getAt, hr1e]
  -- level [a]
  have hR1 : notifyRev (root.modAt [a, b] (fun n => n.setPropVal p v)) [a]
      (.obj [(b, .obj [(p, v)])]) =
      ((emitLocal (emitLocal (root.modAt [a, b] (fun n => n.setPropVal p v)) []
          "data" (.obj [(a, .obj [(b, .obj [(p, v)])])])).1 [a]
          "data" (.obj [(b, .obj [(p, v)])])).1,
       ([] ++ (emitLocal (root.modAt [a, b] (fun n => n.setPropVal p v)) []
          "data" (.obj [(a, .obj [(b, .obj [(p, v)])])])).2) ++
        (emitLocal (emitLocal (root.modAt [a, b] (fun n => n.setPropVal p v)) []
          "data" (.obj [(a, .obj [(b, .obj [(p, v)])])])).1 [a]
          "data" (.obj [(b, .obj [(p, v)])])).2, false) := by
    rw [notifyRev]
    have hrev : ([a] : List String).reverse = [a] := rfl
    rw [hrev, hF7]
    simp only [hA1h, Bool.false_eq_true, if_false, hA1cn, hR0]
    simp [hA1e]
  -- level [b, a]
  have hR2 : notifyRev (root.modAt [a, b] (fun n => n.setPropVal p v)) [b, a]
      (.obj [(p, v)]) =
      ((emitLocal (emitLocal (emitLocal (root.modAt [a, b]
            (fun n => n.setPropVal p v)) []
          "data" (.obj [(a, .obj [(b, .obj [(p, v)])])])).1 [a]
          "data" (.obj [(b, .obj [(p, v)])])).1 [a, b] "data" (.obj [(p, v)])).1,
       (([] ++ (emitLocal (root.modAt [a, b] (fun n => n.setPropVal p v)) []
          "data" (.obj [(a, .obj [(b, .obj [(p, v)])])])).2) ++
        (emitLocal (emitLocal (root.modAt [a, b] (fun n => n.setPropVal p v)) []
          "data" (.obj [(a, .obj [(b, .obj [(p, v)])])])).1 [a]
          "data" (.obj [(b, .obj [(p, v)])])).2) ++
        (emitLocal (emitLocal (emitLocal (root.modAt [a, b]
            (fun n => n.setPropVal p v)) []
          "data" (.obj [(a, .obj [(b, .obj [(p, v)])])])).1 [a]
          "data" (.obj [(b, .obj [(p, v)])])).1 [a, b] "data" (.obj [(p, v)])).2,
       false) := by
    rw [notifyRev]
    have hrev : ([b, a] : List String).reverse = [a, b] := rfl
    rw [hrev, hF1]
    simp only [hB1h, Bool.false_eq_true, if_false, hB1cn, hR1]
    simp [hB1e]
  have hNP : NotifyPropertyAt (root.modAt [a, b] (fun n => n.setPropVal p v))
      [a, b] p =
      notifyRev (root.modAt [a, b] (fun n => n.setPropVal p v)) [b, a]
        (.obj [(p, v)]) := by
    unfold NotifyPropertyAt
    rw [hF1]
    simp only []
    rw [hdelta]
    rfl
  have hset := setterAt_notify root [a, b] p v B hB
    (by rw [rawProp_of_find _ _ _ he]; exact hneq)
    (by rw [hacl]; rfl) hbp hsnp hseB
    (by rw [hNP, hR2])
  rw [hset]
  refine ⟨rfl, ?_, ?_⟩
  · apply List.mem_append_left
    rw [hNP, hR2]
    simp only []
    apply List.mem_append_right
    have hstrip : stripL (emitLocal (emitLocal (root.modAt [a, b]
          (fun n => n.setPropVal p v)) []
        "data" (.obj [(a, .obj [(b, .obj [(p, v)])])])).1 [a]
        "data" (.obj [(b, .obj [(p, v)])])).1 =
        stripL (root.modAt [a, b] (fun n => n.setPropVal p v)) := by
      rw [stripL_emitLocal, stripL_emitLocal]
    have hsome := getAt_isSome_congr _ _ hstrip [a, b]
    rw [hF1] at hsome
    simp only [Option.isSome_some] at hsome
    cases hq : Ctrl.getAt (emitLocal (emitLocal (root.modAt [a, b]
          (fun n => n.setPropVal p v)) []
        "data" (.obj [(a, .obj [(b, .obj [(p, v)])])])).1 [a]
        "data" (.obj [(b, .obj [(p, v)])])).1 [a, b] with
    | none => rw [hq] at hsome; simp at hsome
    | some c' => exact emitLocal_self_mem _ _ _ _ c' hq
  · apply List.mem_append_left
    rw [hNP, hR2]
    simp only []
    apply List.mem_append_left
    apply List.mem_append_left
    apply List.mem_append_right
    exact emitLocal_self_mem _ _ _ _
      (root.modAt [a, b] (fun n => n.setPropVal p v)) rfl

theorem C5_witness :
    (setterAt c5root ["a1", "b1"] "p" (.num 2)).2.2 = false ∧
    Evt.emitE ["a1", "b1"] "data" (.obj [("p", .num 2)]) ∈
      (setterAt c5root ["a1", "b1"] "p" (.num 2)).2.1 ∧
    Evt.emitE [] "data"
        (.obj [("a1", .obj [("b1", .obj [("p", .num 2)])])]) ∈
      (setterAt c5root ["a1", "b1"] "p" (.num 2)).2.1 :=
  C5_three_level_bubbling c5root c5A c5B "a1" "b1" "p" (.num 2)
    ⟨"p", .num 1, true⟩ rfl rfl rfl rfl rfl rfl rfl (by decide) rfl rfl rfl
    rfl rfl rfl rfl rfl rfl

/-! ## Hidden-subtree isolation -/

theorem prefix_length_lt (q m : List String) (hq : q <+: m) (hqm : q ≠ m) :
    q.length < m.length := by
  obtain ⟨t, ht⟩ := hq
  cases t with
  | nil => exact absurd (by simpa using ht) hqm
  | cons a t' =>
    have hl := congrArg List.length ht
    simp at hl
    omega

theorem prefix_concat_of_ne (m l : List String) (x : String)
    (h : m <+: l ++ [x]) (hne : m ≠ l ++ [x]) : m <+: l := by
  have hlt : m.length ≤ l.length := by
    have h1 := prefix_length_lt m (l ++ [x]) h hne
    have h2 : (l ++ [x]).length = l.length + 1 := by simp
    omega
  have ht : m = (l ++ [x]).take m.length := List.prefix_iff_eq_take.mp h
  rw [List.take_append_of_le_length hlt] at ht
  rw [ht]
  exact List.take_prefix _ _

/-- No `data` event strictly above a hidden node: `_notify` stops
forwarding at the first hidden control on the way to the root. -/
theorem notifyRev_data_blocked (r : Ctrl) (ρ : List String) (m q : List String)
    (cm : Ctrl) (hm : r.getAt m = some cm) (hh : cm.hiddenFlag = true)
    (hq : q <+: m) (hqm : q ≠ m) :
    ∀ (δ pl : JSVal), m <+: ρ.reverse →
      Evt.emitE q "data" pl ∉ (notifyRev r ρ δ).2.1 := by
  induction ρ with
  | nil =>
    intro δ pl hmρ
    have hm0 : m = [] := List.prefix_nil.mp (by simpa using hmρ)
    have hq0 : q = [] := List.prefix_nil.mp (by simpa [hm0] using hq)
    exact absurd (hq0.trans hm0.symm) hqm
  | cons x ρp ih =>
    intro δ pl hmρ
    cases hg : r.getAt (x :: ρp).reverse with
    | none => rw [notifyRev, hg]; simp
    | some c =>
      have hqlen := prefix_length_lt q m hq hqm
      have hqfull : q ≠ (x :: ρp).reverse := by
        intro he
        have h1 : m.length ≤ (x :: ρp).reverse.length := hmρ.length_le
        rw [← he] at h1
        omega
      have hstep : ∀ u : Ctrl × List Evt × Bool,
          Evt.emitE q "data" pl ∉ u.2.1 →
          Evt.emitE q "data" pl ∉
            (if u.2.2 = true then u
             else if c.shadowed "emit" = true then (u.1, u.2.1, true)
             else ((emitLocal u.1 (x :: ρp).reverse "data" δ).1,
               u.2.1 ++ (emitLocal u.1 (x :: ρp).reverse "data" δ).2,
               false)).2.1 := by
        intro u hfree hmm
        by_cases h2 : u.2.2 = true
        · rw [if_pos h2] at hmm; exact hfree hmm
        · rw [if_neg h2] at hmm
          by_cases h3 : c.shadowed "emit" = true
          · rw [if_pos h3] at hmm; exact hfree hmm
          · rw [if_neg h3] at hmm
            rcases List.mem_append.mp hmm with hmm | hmm
            · exact hfree hmm
            · exact hqfull (emitLocal_emitE_mem _ _ _ _ _ _ _ hmm).1
      rw [notifyRev, hg]
      cases hhid : c.hiddenFlag with
      | false =>
        have hmne : m ≠ (x :: ρp).reverse := by
          intro he
          have hg2 := hg
          rw [← he, hm] at hg2
          injection hg2 with hceq
          rw [← hceq] at hhid
          rw [hh] at hhid
          exact absurd hhid (by decide)
        have hpre : m <+: ρp.reverse :=
          prefix_concat_of_ne m ρp.reverse x
            (by simpa [List.reverse_cons] using hmρ)
            (by simpa [List.reverse_cons] using hmne)
        simp only [hhid, Bool.false_eq_true, if_false]
        exact hstep _ (ih (.obj [(c.data.cname, δ)]) pl hpre)
      | true =>
        simp only [hhid, if_true]
        exact hstep (r, [], false) (List.not_mem_nil _)

/-- A completed `_notify` always contains the target node's own local
`data` emission. -/
theorem notifyRev_self_data (r : Ctrl) (ρ : List String) (δ : JSVal)
    (c : Ctrl) (hg : r.getAt ρ.reverse = some c)
    (herr : (notifyRev r ρ δ).2.2 = false) :
    Evt.emitE ρ.reverse "data" δ ∈ (notifyRev r ρ δ).2.1 := by
  have key : ∀ u : Ctrl × List Evt × Bool, stripL u.1 = stripL r →
      (if u.2.2 = true then u
       else if c.shadowed "emit" = true then (u.1, u.2.1, true)
       else ((emitLocal u.1 ρ.reverse "data" δ).1,
         u.2.1 ++ (emitLocal u.1 ρ.reverse "data" δ).2, false)).2.2 = false →
      Evt.emitE ρ.reverse "data" δ ∈
      (if u.2.2 = true then u
       else if c.shadowed "emit" = true then (u.1, u.2.1, true)
       else ((emitLocal u.1 ρ.reverse "data" δ).1,
         u.2.1 ++ (emitLocal u.1 ρ.reverse "data" δ).2, false)).2.1 := by
    intro u hsu herru
    by_cases h2 : u.2.2 = true
    · rw [if_pos h2] at herru
      rw [h2] at herru
      exact absurd herru (by decide)
    · rw [if_neg h2] at herru ⊢
      by_cases h3 : c.shadowed "emit" = true
      · rw [if_pos h3] at herru; simp at herru
      · rw [if_neg h3]
        apply List.mem_append_right
        have hsome := getAt_isSome_congr u.1 r hsu ρ.reverse
        rw [hg] at hsome
        simp only [Option.isSome_some] at hsome
        cases hq : u.1.getAt ρ.reverse with
        | none => rw [hq] at hsome; simp at hsome
        | some c2 => exact emitLocal_self_mem _ _ _ _ c2 hq
  rw [notifyRev, hg] at herr ⊢
  cases ρ with
  | nil => exact key (r, [], false) rfl herr
  | cons x ρp =>
    cases hhid : c.hiddenFlag with
    | false =>
      simp only [hhid, Bool.false_eq_true, if_false] at herr ⊢
      exact key (notifyRev r ρp (.obj [(c.data.cname, δ)]))
        (stripL_notifyRev r ρp _) herr
    | true =>
      simp only [hhid, if_true] at herr ⊢
      exact key (r, [], false) rfl herr

theorem NotifyPropertyAt_hidden_blocked (r : Ctrl) (πn : List String)
    (k : String) (m q : List String) (cm : Ctrl)
    (hm : r.getAt m = some cm) (hh : cm.hiddenFlag = true)
    (hpre : m <+: πn) (hq : q <+: m) (hqm : q ≠ m) (pl : JSVal) :
    Evt.emitE q "data" pl ∉ (NotifyPropertyAt r πn k).2.1 := by
  unfold NotifyPropertyAt
  cases hgp : r.getAt πn with
  | none => simp
  | some c =>
    simp only []
    unfold notifyAt
    exact notifyRev_data_blocked r πn.reverse m q cm hm hh hq hqm
      (notifyDelta1 c k) pl (by simpa using hpre)

theorem getAt_append (r : Ctrl) (q s : List String) :
    r.getAt (q ++ s) = (r.getAt q).bind (fun c => c.getAt s) := by
  induction q generalizing r with
  | nil => simp [Ctrl.getAt]
  | cons a q' ih =>
    cases r with
    | node d cs =>
      simp only [List.cons_append, Ctrl.getAt, Ctrl.children]
      cases h : cs.find? a with
      | none => simp
      | some ch => simp [ih]

theorem digPath_undef (τ : List String) : digPath .undef τ = .undef := by
  induction τ with
  | nil => rfl
  | cons t τ' ih => exact ih

theorem getField_obj (fs : List (String × JSVal)) (k : String) :
    getField (.obj fs) k = (fldsFind fs k).getD .undef := by
  induction fs with
  | nil => rfl
  | cons p rest ih =>
    by_cases h : p.1 = k
    · simp [getField, fldsFind, h, List.find?]
    · simp only [getField, List.find?] at ih ⊢
      simp only [fldsFind, if_neg h]
      have hb : (p.1 == k) = false := by
        simp [h]
      rw [hb]
      exact ih

theorem propsFind_none_forall (ps : List PropEntry) (k : String)
    (h : propsFind ps k = none) : ∀ p ∈ ps, p.pname ≠ k := by
  induction ps with
  | nil => intro p hp; cases hp
  | cons e rest ih =>
    intro p hp
    by_cases he : e.pname = k
    · simp [propsFind, he] at h
    · simp only [propsFind, if_neg he] at h
      rcases List.mem_cons.mp hp with rfl | hp2
      · exact he
      · exact ih h p hp2

theorem Get_step (d : CtrlData) (cs : Ctrls) (sparse : Bool) :
    Ctrl.Get (.node d cs) sparse = getKids cs sparse (getOwnProps d sparse) := by
  rw [Ctrl.Get]

/-- The child-collection fold leaves keys naming no child untouched. -/
theorem getKids_untouched (cs : Ctrls) (sparse : Bool)
    (acc res : List (String × JSVal)) (key : String)
    (hno : (kidNames cs).contains key = false)
    (hres : getKids cs sparse acc = .ok res) :
    fldsFind res key = fldsFind acc key := by
  cases cs with
  | nil =>
    simp only [getKids] at hres
    injection hres with h
    rw [← h]
  | cons n ch rest =>
    have hkn : n ≠ key := by
      intro hEq
      simp [kidNames, hEq] at hno
    have hrest : (kidNames rest).contains key = false := by
      simp [kidNames, List.contains_cons] at hno
      simpa using hno.2
    simp only [getKids] at hres
    by_cases hguard : (!(looseEq (if ch.shadowed "Get" = true then ch.getP "Get"
        else .objRef) .undef) && !ch.hiddenFlag) = true
    · rw [if_pos hguard] at hres
      by_cases hsh : ch.shadowed "Get" = true
      · rw [if_pos hsh] at hres
        cases hres
      · rw [if_neg hsh] at hres
        cases hsub : Ctrl.Get ch sparse with
        | error u => rw [hsub] at hres; cases hres
        | ok sub =>
          rw [hsub] at hres
          simp only [] at hres
          rw [getKids_untouched rest sparse _ res key hrest hres]
          rw [fldsFind_objSet]
          rw [if_neg (Ne.symm hkn)]
    · rw [if_neg hguard] at hres
      exact getKids_untouched rest sparse _ res key hrest hres

/-- What the child-collection fold records under a child's name: nothing
when the child is skipped, its nested `Get` when it is included (which
requires the child unhidden). -/
theorem getKids_value (cs : Ctrls) (sparse : Bool)
    (acc res : List (String × JSVal)) (t : String) (ch : Ctrl)
    (hfind : cs.find? t = some ch)
    (hnd : nodupKeys (kidNames cs) = true)
    (hacc : fldsFind acc t = none)
    (hres : getKids cs sparse acc = .ok res) :
    fldsFind res t = none ∨
      (∃ sub, fldsFind res t = some (.obj sub) ∧
        Ctrl.Get ch sparse = .ok sub ∧ ch.hiddenFlag = false) := by
  cases cs with
  | nil => simp [Ctrls.find?] at hfind
  | cons n ch2 rest =>
    have hndr : nodupKeys (kidNames rest) = true := by
      simp [nodupKeys, kidNames, Bool.and_eq_true] at hnd
      exact hnd.2
    simp only [getKids] at hres
    by_cases hnt : n = t
    · subst hnt
      have hch : ch2 = ch := by
        simpa [Ctrls.find?] using hfind
      subst hch
      have hrest : (kidNames rest).contains n = false := by
        simp [nodupKeys, kidNames, Bool.and_eq_true] at hnd
        simpa using hnd.1
      by_cases hguard : (!(looseEq (if ch2.shadowed "Get" = true then ch2.getP "Get"
          else .objRef) .undef) && !ch2.hiddenFlag) = true
      · rw [if_pos hguard] at hres
        by_cases hsh : ch2.shadowed "Get" = true
        · rw [if_pos hsh] at hres
          cases hres
        · rw [if_neg hsh] at hres
          cases hsub : Ctrl.Get ch2 sparse with
          | error u => rw [hsub] at hres; cases hres
          | ok sub =>
            rw [hsub] at hres
            simp only [] at hres
            refine Or.inr ⟨sub, ?_, rfl, ?_⟩
            · rw [getKids_untouched rest sparse _ res n hrest hres]
              rw [fldsFind_objSet]
              rw [if_pos rfl]
            · have hhid := (Bool.and_eq_true _ _).mp hguard
              simpa using hhid.2
      · rw [if_neg hguard] at hres
        exact Or.inl (by
          rw [getKids_untouched rest sparse _ res n hrest hres]
          exact hacc)
    · have hfind2 : rest.find? t = some ch := by
        simpa [Ctrls.find?, hnt] using hfind
      by_cases hguard : (!(looseEq (if ch2.shadowed "Get" = true then ch2.getP "Get"
          else .objRef) .undef) && !ch2.hiddenFlag) = true
      · rw [if_pos hguard] at hres
        by_cases hsh : ch2.shadowed "Get" = true
        · rw [if_pos hsh] at hres
          cases hres
        · rw [if_neg hsh] at hres
          cases hsub : Ctrl.Get ch2 sparse with
          | error u => rw [hsub] at hres; cases hres
          | ok sub =>
            rw [hsub] at hres
            simp only [] at hres
            have hacc2 : fldsFind (objSet acc n (.obj sub)) t = none := by
              rw [fldsFind_objSet, if_neg (fun h => hnt h.symm)]
              exact hacc
            exact getKids_value rest sparse _ res t ch hfind2 hndr hacc2 hres
      · rw [if_neg hguard] at hres
        exact getKids_value rest sparse _ res t ch hfind2 hndr hacc hres

/-- `Get` on an ancestor of a hidden node yields a result carrying nothing
at the hidden node's relative path (well-formed path: child names exist,
are duplicate-free and collide with no property name). -/
theorem Get_hidden_excluded (path : List String) (C : Ctrl) (A : Ctrl)
    (sparse : Bool) (res : List (String × JSVal))
    (hne : path ≠ [])
    (hget : C.getAt path = some A) (hh : A.hiddenFlag = true)
    (hok : pathOK C path = true)
    (hres : Ctrl.Get C sparse = .ok res) :
    digPath (.obj res) path = .undef := by
  induction path generalizing C res with
  | nil => exact absurd rfl hne
  | cons t rest ih =>
    cases C with
    | node d cs =>
      cases hfind : cs.find? t with
      | none =>
        rw [pathOK] at hok
        simp only [Ctrl.children] at hok
        rw [hfind] at hok
        cases hok
      | some ch =>
        rw [pathOK] at hok
        simp only [Ctrl.children] at hok
        rw [hfind] at hok
        simp only [Bool.and_eq_true] at hok
        obtain ⟨⟨hprop, hnd⟩, hokr⟩ := hok
        simp only [Ctrl.data] at hprop
        have hget2 : ch.getAt rest = some A := by
          rw [Ctrl.getAt] at hget
          simp only [Ctrl.children] at hget
          rw [hfind] at hget
          exact hget
        rw [Get_step] at hres
        have hpnone : propsFind d.props t = none := by
          cases hpf : propsFind d.props t with
          | none => rfl
          | some e => rw [hpf] at hprop; simp at hprop
        have hacc : fldsFind (getOwnProps d sparse) t = none := by
          unfold getOwnProps
          rw [getOwnFold_untouched _ _ _ _ _
            (propsFind_none_forall d.props t hpnone)]
          rfl
        rcases getKids_value cs sparse _ res t ch hfind hnd hacc hres with
          hnone | ⟨sub, hsub, hchget, hchhid⟩
        · show digPath (getField (.obj res) t) rest = .undef
          rw [getField_obj, hnone]
          exact digPath_undef rest
        · cases rest with
          | nil =>
            have hchA : ch = A := by
              simpa [Ctrl.getAt] using hget2
            rw [hchA] at hchhid
            rw [hh] at hchhid
            exact absurd hchhid (by decide)
          | cons r2 rest2 =>
            show digPath (getField (.obj res) t) (r2 :: rest2) = .undef
            rw [getField_obj, hsub]
            exact ih ch sub (by simp) hget2 hokr hchget

/-- No `data` event on a strict ancestor of a hidden node from a property
write (through the generated setter) at or below it, as long as the write
is not to the hidden node's own `hideData`. -/
theorem setterAt_hidden_no_ancestor_data (root A : Ctrl) (πA σ : List String)
    (hA : root.getAt πA = some A) (hhA : A.hiddenFlag = true)
    (k : String) (v : JSVal) (q : List String) (pl : JSVal)
    (hq : q <+: πA) (hqm : q ≠ πA) (hk : σ = [] → k ≠ "hideData") :
    Evt.emitE q "data" pl ∉ (setterAt root (πA ++ σ) k v).2.1 := by
  have hqlen := prefix_length_lt q πA hq hqm
  have hqn : q ≠ πA ++ σ := by
    intro he
    have h1 : (πA ++ σ).length = πA.length + σ.length := by simp
    rw [← he] at h1
    omega
  have hhid1 : ∃ cm, (root.modAt (πA ++ σ)
      (fun n => n.setPropVal k v)).getAt πA = some cm ∧
      cm.hiddenFlag = true := by
    cases σ with
    | nil =>
      refine ⟨A.setPropVal k v, ?_, ?_⟩
      · rw [List.append_nil, getAt_modAt_self, hA]
        rfl
      · rw [hiddenFlag_setPropVal _ _ _ (hk rfl)]
        exact hhA
    | cons s σ2 =>
      refine ⟨A.modAt (s :: σ2) (fun n => n.setPropVal k v), ?_, ?_⟩
      · rw [getAt_modAt_append, hA]
        rfl
      · rw [hiddenFlag_modAt_cons]
        exact hhA
  obtain ⟨cm, hm1, hh1⟩ := hhid1
  intro hmem
  rw [setterAt] at hmem
  cases hg : root.getAt (πA ++ σ) with
  | none => rw [hg] at hmem; simp at hmem
  | some c =>
    rw [hg] at hmem
    simp only [] at hmem
    by_cases h1 : (!looseEq (c.rawProp k) v) = true
    · rw [if_pos h1] at hmem
      by_cases h2 : chanPass (aclFind c.data.acl k) AclEntry.aclSetter = true
      · rw [if_pos h2] at hmem
        by_cases h3 : c.data.bypassNotify = true
        · rw [if_pos h3] at hmem
          by_cases h4 : c.shadowed "emit" = true
          · rw [if_pos h4] at hmem
            simp at hmem
          · rw [if_neg h4] at hmem
            exact hqn (emitLocal_emitE_mem _ _ _ _ _ _ _ hmem).1
        · rw [if_neg h3] at hmem
          by_cases h5 : c.shadowed "NotifyProperty" = true
          · rw [if_pos h5] at hmem
            simp at hmem
          · rw [if_neg h5] at hmem
            have hblock := NotifyPropertyAt_hidden_blocked
              (root.modAt (πA ++ σ) (fun n => n.setPropVal k v)) (πA ++ σ) k
              πA q cm hm1 hh1 (List.prefix_append _ _) hq hqm pl
            by_cases h6 : (NotifyPropertyAt (root.modAt (πA ++ σ)
                (fun n => n.setPropVal k v)) (πA ++ σ) k).2.2 = true
            · rw [if_pos h6] at hmem
              exact hblock hmem
            · rw [if_neg h6] at hmem
              by_cases h7 : c.shadowed "emit" = true
              · rw [if_pos h7] at hmem
                exact hblock hmem
              · rw [if_neg h7] at hmem
                rcases List.mem_append.mp hmem with hmm | hmm
                · exact hblock hmm
                · exact hqn (emitLocal_emitE_mem _ _ _ _ _ _ _ hmm).1
      · rw [if_neg h2] at hmem
        simp at hmem
    · rw [if_neg h1] at hmem
      simp at hmem

/-- An accepted observable property write whose setter call completes
without error always contains the written node's own local `data` event
carrying the single-name delta (notably also on and below hidden
nodes). -/
theorem setterAt_local_data (root : Ctrl) (πB : List String) (B : Ctrl)
    (k : String) (v : JSVal) (e : PropEntry)
    (hB : root.getAt πB = some B)
    (he : propsFind B.data.props k = some e) (hal : e.alive = true)
    (hset : chanPass (aclFind B.data.acl k) AclEntry.aclSetter = true)
    (hgetter : chanPass (aclFind B.data.acl k) AclEntry.aclGetter = true)
    (hget : chanPass (aclFind B.data.acl k) AclEntry.aclGet = true)
    (hneq : looseEq e.pval v = false) (hv : isNullish v = false)
    (hbp : B.data.bypassNotify = false)
    (hsnp : B.shadowed "NotifyProperty" = false)
    (hsem : B.shadowed "emit" = false)
    (herr : (setterAt root πB k v).2.2 = false) :
    Evt.emitE πB "data" (.obj [(k, v)]) ∈ (setterAt root πB k v).2.1 := by
  have hF1 : (root.modAt πB (fun n => n.setPropVal k v)).getAt πB =
      some (B.setPropVal k v) := by
    rw [getAt_modAt_self, hB]
    rfl
  have hB1get : chanPass (aclFind (B.setPropVal k v).data.acl k)
      AclEntry.aclGet = true := by
    rw [data_setPropVal]
    exact hget
  have hdelta : notifyDelta1 (B.setPropVal k v) k = .obj [(k, v)] := by
    unfold notifyDelta1
    rw [getP_setPropVal_self B k v e he hal hgetter, looseEq_undef_right, hv,
      hB1get]
    rfl
  have hNP : NotifyPropertyAt (root.modAt πB (fun n => n.setPropVal k v)) πB k =
      notifyRev (root.modAt πB (fun n => n.setPropVal k v)) πB.reverse
        (.obj [(k, v)]) := by
    unfold NotifyPropertyAt
    rw [hF1]
    simp only []
    rw [hdelta]
    rfl
  have hraw : looseEq (B.rawProp k) v = false := by
    rw [rawProp_of_find _ _ _ he]
    exact hneq
  rw [setterAt, hB] at herr
  simp only [hraw, Bool.not_false, if_true, hset, hbp, Bool.false_eq_true,
    if_false, hsnp] at herr
  have hnerr : (NotifyPropertyAt (root.modAt πB (fun n => n.setPropVal k v))
      πB k).2.2 = false := by
    by_cases hn : (NotifyPropertyAt (root.modAt πB
        (fun n => n.setPropVal k v)) πB k).2.2 = true
    · rw [if_pos hn] at herr
      rw [hn] at herr
      exact absurd herr (by decide)
    · cases hbool : (NotifyPropertyAt (root.modAt πB
          (fun n => n.setPropVal k v)) πB k).2.2 with
      | false => rfl
      | true => exact absurd hbool hn
  rw [setterAt_notify root πB k v B hB hraw hset hbp hsnp hsem hnerr]
  apply List.mem_append_left
  rw [hNP]
  have hgB1 : (root.modAt πB (fun n => n.setPropVal k v)).getAt
      (πB.reverse).reverse = some (B.setPropVal k v) := by
    rw [List.reverse_reverse]
    exact hF1
  have herr2 : (notifyRev (root.modAt πB (fun n => n.setPropVal k v))
      πB.reverse (.obj [(k, v)])).2.2 = false := by
    rw [← hNP]
    exact hnerr
  have hmem := notifyRev_self_data (root.modAt πB (fun n => n.setPropVal k v))
    πB.reverse (.obj [(k, v)]) (B.setPropVal k v) hgB1 herr2
  simpa using hmem

/-- C6 counterexample: on the literal claim, a property change inside the
hidden node's subtree must never produce a `data` event on an ancestor;
but writing `hideData = false` to the hidden node itself stores the value
before notifying, so the notification runs with the flag already cleared
and a `data` event reaches the root. -/
theorem C6_counterexample :
    c6root.getAt ["h"] = some c6A ∧ c6A.hiddenFlag = true ∧
    Evt.emitE [] "data" (.obj [("h", .obj [("hideData", .bool false)])]) ∈
      (setterAt c6root ["h"] "hideData" (.bool false)).2.1 := by
  refine ⟨rfl, rfl, ?_⟩
  have h : (setterAt c6root ["h"] "hideData" (.bool false)).2.1 =
      [Evt.emitE [] "data" (.obj [("h", .obj [("hideData", .bool false)])]),
       Evt.emitE ["h"] "data" (.obj [("hideData", .bool false)]),
       Evt.emitE ["h"] "hideData" (.bool false)] := rfl
  rw [h]
  exact List.mem_cons_self _ _

/-- C6 (amended): for a node `A` whose `hideData` reads truthy,
(1) no property write through a generated setter at or below `A` — other
than a write to `A`'s own `hideData` — produces a `data` event on a strict
ancestor of `A`; (2) `Get` on any ancestor of `A` (with `A` reached along
a well-formed path: every step names an existing child, child names are
duplicate-free and collide with no property name) excludes `A` and all its
descendants: the result carries nothing at `A`'s relative path; (3) an
accepted observable write on any node of the hidden subtree still emits
that node's own local `data` event with its own delta whenever the setter
completes without error. -/
theorem C6_hidden_subtree_isolation (root A : Ctrl) (πA : List String)
    (hA : root.getAt πA = some A) (hhA : A.hiddenFlag = true) :
    (∀ (σ : List String) (k : String) (v : JSVal) (q : List String)
        (pl : JSVal), q <+: πA → q ≠ πA → (σ = [] → k ≠ "hideData") →
      Evt.emitE q "data" pl ∉ (setterAt root (πA ++ σ) k v).2.1) ∧
    (∀ (q τ : List String) (n : String) (C : Ctrl) (sparse : Bool)
        (res : List (String × JSVal)),
      root.getAt q = some C → πA = q ++ (τ ++ [n]) →
      pathOK C (τ ++ [n]) = true → Ctrl.Get C sparse = .ok res →
      digPath (.obj res) (τ ++ [n]) = .undef) ∧
    (∀ (σ : List String) (B : Ctrl) (k : String) (v : JSVal) (e : PropEntry),
      root.getAt (πA ++ σ) = some B →
      propsFind B.data.props k = some e → e.alive = true →
      chanPass (aclFind B.data.acl k) AclEntry.aclSetter = true →
      chanPass (aclFind B.data.acl k) AclEntry.aclGetter = true →
      chanPass (aclFind B.data.acl k) AclEntry.aclGet = true →
      looseEq e.pval v = false → isNullish v = false →
      B.data.bypassNotify = false →
      B.shadowed "NotifyProperty" = false → B.shadowed "emit" = false →
      (setterAt root (πA ++ σ) k v).2.2 = false →
      Evt.emitE (πA ++ σ) "data" (.obj [(k, v)]) ∈
        (setterAt root (πA ++ σ) k v).2.1) := by
  refine ⟨?_, ?_, ?_⟩
  · intro σ k v q pl hq hqm hk
    exact setterAt_hidden_no_ancestor_data root A πA σ hA hhA k v q pl hq
      hqm hk
  · intro q τ n C sparse res hC hπ hok hres
    have hgetA : C.getAt (τ ++ [n]) = some A := by
      have h1 := getAt_append root q (τ ++ [n])
      rw [← hπ, hA, hC] at h1
      simpa using h1.symm
    exact Get_hidden_excluded (τ ++ [n]) C A sparse res (by simp) hgetA hhA
      hok hres
  · intro σ B k v e hB he hal hset hgetter hget hneq hv hbp hsnp hsem herr
    exact setterAt_local_data root (πA ++ σ) B k v e hB he hal hset hgetter
      hget hneq hv hbp hsnp hsem herr

theorem C6_witness :
    (Evt.emitE [] "data" (.obj [("p", .num 5)]) ∉
      (setterAt c6root ["h"] "p" (.num 5)).2.1) ∧
    digPath (.obj []) ["h"] = .undef ∧
    Evt.emitE ["h"] "data" (.obj [("p", .num 5)]) ∈
      (setterAt c6root ["h"] "p" (.num 5)).2.1 := by
  have h := C6_hidden_subtree_isolation c6root c6A ["h"] rfl rfl
  refine ⟨?_, ?_, ?_⟩
  · exact h.1 [] "p" (.num 5) [] (.obj [("p", .num 5)]) List.nil_prefix
      (by decide) (fun _ => by decide)
  · exact h.2.1 [] [] "h" c6root false [] rfl rfl rfl rfl
  · exact h.2.2 [] c6A "p" (.num 5) ⟨"p", .num 1, true⟩ rfl rfl rfl rfl rfl
      rfl (by decide) rfl rfl rfl rfl rfl

/-! ## Listener accounting for `RemoveChild` and the caller cleanup -/

theorem countL_append (a b : List Listener) (e : String) (lid : Nat) :
    countL (a ++ b) e lid = countL a e lid + countL b e lid := by
  induction a with
  | nil => simp [countL]
  | cons l rest ih =>
    have h1 : countL ((l :: rest) ++ b) e lid =
        (if l.event = e ∧ l.kind = LKind.user lid then 1 else 0) +
          countL (rest ++ b) e lid := rfl
    rw [h1, ih]
    simp only [countL]
    omega

theorem countL_reverse (ls : List Listener) (e : String) (lid : Nat) :
    countL ls.reverse e lid = countL ls e lid := by
  induction ls with
  | nil => rfl
  | cons l rest ih =>
    rw [List.reverse_cons, countL_append, ih]
    simp only [countL]
    omega

theorem rfm_countL_le (ls : List Listener) (ev : String) (k : LKind)
    (e : String) (lid : Nat) :
    countL (removeFirstMatch ls ev k) e lid ≤ countL ls e lid := by
  induction ls with
  | nil => exact Nat.le_refl _
  | cons l rest ih =>
    by_cases hm : (l.event == ev && l.kind == k) = true
    · rw [removeFirstMatch, if_pos hm]
      simp only [countL]
      omega
    · rw [removeFirstMatch, if_neg hm]
      simp only [countL]
      omega

theorem rfm_countL_zero (ls : List Listener) (e : String) (lid : Nat)
    (h : countL ls e lid ≤ 1) :
    countL (removeFirstMatch ls e (.user lid)) e lid = 0 := by
  induction ls with
  | nil => rfl
  | cons l rest ih =>
    by_cases hm : (l.event == e && l.kind == LKind.user lid) = true
    · rw [removeFirstMatch, if_pos hm]
      have hc : l.event = e ∧ l.kind = LKind.user lid := by
        simpa [Bool.and_eq_true] using hm
      simp only [countL, if_pos hc] at h
      omega
    · rw [removeFirstMatch, if_neg hm]
      have hc : ¬(l.event = e ∧ l.kind = LKind.user lid) := by
        intro hc2
        exact hm (by simp [hc2.1, hc2.2])
      simp only [countL, if_neg hc] at h ⊢
      simpa using ih (by omega)

theorem off_countL_le (ls : List Listener) (ev : String) (k : LKind)
    (e : String) (lid : Nat) :
    countL (offListeners ls ev k) e lid ≤ countL ls e lid := by
  unfold offListeners
  rw [countL_reverse]
  calc countL (removeFirstMatch ls.reverse ev k) e lid
      ≤ countL ls.reverse e lid := rfm_countL_le _ _ _ _ _
    _ = countL ls e lid := countL_reverse _ _ _

theorem off_countL_zero (ls : List Listener) (e : String) (lid : Nat)
    (h : countL ls e lid ≤ 1) :
    countL (offListeners ls e (.user lid)) e lid = 0 := by
  unfold offListeners
  rw [countL_reverse]
  exact rfm_countL_zero ls.reverse e lid (by rw [countL_reverse]; exact h)

theorem setListeners_listeners (c : Ctrl) (ls : List Listener) :
    (c.setListeners ls).data.listeners = ls := by
  cases c with
  | node d cs => rfl

theorem children_setListeners (c : Ctrl) (ls : List Listener) :
    (c.setListeners ls).children = c.children := by
  cases c with
  | node d cs => rfl

theorem listenersAt_node (d : CtrlData) (cs : Ctrls) (a : String)
    (q : List String) :
    listenersAt (.node d cs) (a :: q) =
      (match cs.find? a with
       | some ch => listenersAt ch q
       | none => none) := by
  unfold listenersAt
  simp only [Ctrl.getAt, Ctrl.children]
  cases h : cs.find? a <;> rfl

/-- A modifier that keeps every node's children map leaves the listeners
of every other node alone. -/
theorem listenersAt_modAt_ne (t q : List String) (f : Ctrl → Ctrl)
    (hch : ∀ c, (f c).children = c.children) (hne : q ≠ t) (r : Ctrl) :
    listenersAt (r.modAt t f) q = listenersAt r q := by
  cases t with
  | nil =>
    cases q with
    | nil => exact absurd rfl hne
    | cons a q2 =>
      cases r with
      | node d cs =>
        have hmod : (Ctrl.node d cs).modAt [] f = f (.node d cs) := rfl
        rw [hmod]
        cases hf : f (.node d cs) with
        | node d2 cs2 =>
          have hcs : cs2 = cs := by
            have h2 := hch (.node d cs)
            rw [hf] at h2
            exact h2
          rw [listenersAt_node, listenersAt_node, hcs]
  | cons s t2 =>
    cases r with
    | node d cs =>
      have hmod : (Ctrl.node d cs).modAt (s :: t2) f =
          .node d (cs.modify s (fun ch => ch.modAt t2 f)) := rfl
      rw [hmod]
      cases q with
      | nil => rfl
      | cons a q2 =>
        rw [listenersAt_node, listenersAt_node]
        by_cases has : a = s
        · subst has
          rw [find?_modify_self]
          cases hfind : cs.find? a with
          | none => rfl
          | some ch =>
            exact listenersAt_modAt_ne t2 q2 f hch
              (fun hEq => hne (by rw [hEq])) ch
        · rw [find?_modify_other _ _ _ _ has]

/-- A modifier preserving listeners and all children entries except
`name` leaves the listeners of every node outside `t ++ [name]`'s
subtree alone. -/
theorem listenersAt_modAt_except (t q : List String) (name : String)
    (f : Ctrl → Ctrl)
    (hd : ∀ c, (f c).data.listeners = c.data.listeners)
    (hch : ∀ c k, k ≠ name → (f c).children.find? k = c.children.find? k)
    (hq : ¬(t ++ [name] <+: q)) (r : Ctrl) :
    listenersAt (r.modAt t f) q = listenersAt r q := by
  cases t with
  | nil =>
    cases q with
    | nil =>
      cases r with
      | node d cs =>
        have hmod : (Ctrl.node d cs).modAt [] f = f (.node d cs) := rfl
        rw [hmod]
        exact congrArg some (hd (.node d cs))
    | cons a q2 =>
      by_cases han : a = name
      · exact absurd (by
          rw [han]
          exact List.cons_prefix_cons.mpr ⟨rfl, List.nil_prefix⟩) hq
      · cases r with
        | node d cs =>
          have hmod : (Ctrl.node d cs).modAt [] f = f (.node d cs) := rfl
          rw [hmod]
          cases hf : f (.node d cs) with
          | node d2 cs2 =>
            rw [listenersAt_node, listenersAt_node]
            have h2 := hch (.node d cs) a han
            rw [hf] at h2
            rw [show (Ctrl.node d2 cs2).children.find? a = cs2.find? a
                from rfl] at h2
            rw [show (Ctrl.node d cs).children.find? a = cs.find? a
                from rfl] at h2
            rw [h2]
  | cons s t2 =>
    cases r with
    | node d cs =>
      have hmod : (Ctrl.node d cs).modAt (s :: t2) f =
          .node d (cs.modify s (fun ch => ch.modAt t2 f)) := rfl
      rw [hmod]
      cases q with
      | nil => rfl
      | cons a q2 =>
        rw [listenersAt_node, listenersAt_node]
        by_cases has : a = s
        · subst has
          rw [find?_modify_self]
          cases hfind : cs.find? a with
          | none => rfl
          | some ch =>
            have hq2 : ¬(t2 ++ [name] <+: q2) := by
              intro hEq
              exact hq (List.cons_prefix_cons.mpr ⟨rfl, hEq⟩)
            exact listenersAt_modAt_except t2 q2 name f hd hch hq2 ch
        · rw [find?_modify_other _ _ _ _ has]

theorem countAt_offAt_le (r : Ctrl) (t : List String) (ev : String)
    (k : LKind) (q : List String) (e : String) (lid : Nat) :
    countAt (offAt r t ev k) q e lid ≤ countAt r q e lid := by
  by_cases hq : q = t
  · subst hq
    unfold countAt offAt
    have h1 : listenersAt (r.modAt q (fun c =>
        c.setListeners (offListeners c.data.listeners ev k))) q =
        (r.getAt q).map (fun c => offListeners c.data.listeners ev k) := by
      unfold listenersAt
      rw [getAt_modAt_self]
      cases r.getAt q with
      | none => rfl
      | some c => exact congrArg some (setListeners_listeners _ _)
    rw [h1]
    unfold listenersAt
    cases r.getAt q with
    | none => exact Nat.le_refl _
    | some c => exact off_countL_le _ _ _ _ _
  · unfold countAt offAt
    rw [listenersAt_modAt_ne t q _ (fun c => children_setListeners c _) hq]

theorem countAt_offAt_self (r : Ctrl) (q : List String) (e : String)
    (lid : Nat) (h : countAt r q e lid ≤ 1) :
    countAt (offAt r q e (.user lid)) q e lid = 0 := by
  unfold countAt at h ⊢
  unfold offAt
  have h1 : listenersAt (r.modAt q (fun c =>
      c.setListeners (offListeners c.data.listeners e (.user lid)))) q =
      (r.getAt q).map (fun c => offListeners c.data.listeners e (.user lid)) := by
    unfold listenersAt
    rw [getAt_modAt_self]
    cases r.getAt q with
    | none => rfl
    | some c => exact congrArg some (setListeners_listeners _ _)
  rw [h1]
  unfold listenersAt at h
  cases hg : r.getAt q with
  | none => rfl
  | some c =>
    rw [hg] at h
    exact off_countL_zero _ _ _ h

theorem countAt_emitStep_le (π : List String) (e2 : String) (p : JSVal)
    (acc : Ctrl × List Evt) (l : Listener) (q : List String) (e : String)
    (lid : Nat) :
    countAt (emitStep π e2 p acc l).1 q e lid ≤ countAt acc.1 q e lid := by
  unfold emitStep
  cases hk : l.kind with
  | user i => exact Nat.le_refl _
  | cleanup tgt ev oid => exact countAt_offAt_le _ _ _ _ _ _ _

theorem emitFold_count_le (π : List String) (e2 : String) (p : JSVal)
    (ls : List Listener) (acc : Ctrl × List Evt) (q : List String)
    (e : String) (lid : Nat) :
    countAt (ls.foldl (emitStep π e2 p) acc).1 q e lid ≤
      countAt acc.1 q e lid := by
  induction ls generalizing acc with
  | nil => exact Nat.le_refl _
  | cons l rest ih =>
    rw [List.foldl_cons]
    exact Nat.le_trans (ih _) (countAt_emitStep_le π e2 p acc l q e lid)

theorem emitFold_count_zero (π : List String) (e2 : String) (p : JSVal)
    (ls : List Listener) (acc : Ctrl × List Evt) (q : List String)
    (e : String) (lid : Nat)
    (hmem : ∃ l ∈ ls, l.kind = LKind.cleanup q e lid)
    (hle : countAt acc.1 q e lid ≤ 1) :
    countAt (ls.foldl (emitStep π e2 p) acc).1 q e lid = 0 := by
  induction ls generalizing acc with
  | nil =>
    obtain ⟨l, hl, _⟩ := hmem
    cases hl
  | cons l rest ih =>
    obtain ⟨l2, hl2, hk⟩ := hmem
    rw [List.foldl_cons]
    rcases List.mem_cons.mp hl2 with rfl | hl2r
    · have hzero : countAt (emitStep π e2 p acc l2).1 q e lid = 0 := by
        unfold emitStep
        rw [hk]
        exact countAt_offAt_self acc.1 q e lid hle
      have hle2 := emitFold_count_le π e2 p rest (emitStep π e2 p acc l2)
        q e lid
      omega
    · exact ih (emitStep π e2 p acc l) ⟨l2, hl2r, hk⟩
        (Nat.le_trans (countAt_emitStep_le π e2 p acc l q e lid) hle)

theorem emitFold_invoke_mem (π : List String) (e2 : String) (p : JSVal)
    (ls : List Listener) (acc : Ctrl × List Evt) (q2 : List String)
    (e3 : String) (k : LKind) (pl : JSVal)
    (h : Evt.invoke q2 e3 k pl ∈ (ls.foldl (emitStep π e2 p) acc).2) :
    Evt.invoke q2 e3 k pl ∈ acc.2 ∨ ∃ l ∈ ls, l.kind = k := by
  induction ls generalizing acc with
  | nil => exact Or.inl h
  | cons l rest ih =>
    rw [List.foldl_cons] at h
    rcases ih _ h with h1 | ⟨l2, hl2, hk⟩
    · cases hkind : l.kind with
      | user i =>
        unfold emitStep at h1
        rw [hkind] at h1
        rcases List.mem_append.mp h1 with h2 | h2
        · exact Or.inl h2
        · have h3 := List.mem_singleton.mp h2
          injection h3 with hq3 he3 hk3 hp3
          refine Or.inr ⟨l, List.mem_cons_self _ _, ?_⟩
          rw [hkind]
          exact hk3.symm
      | cleanup tgt ev oid =>
        unfold emitStep at h1
        rw [hkind] at h1
        rcases List.mem_append.mp h1 with h2 | h2
        · exact Or.inl h2
        · have h3 := List.mem_singleton.mp h2
          injection h3 with hq3 he3 hk3 hp3
          refine Or.inr ⟨l, List.mem_cons_self _ _, ?_⟩
          rw [hkind]
          exact hk3.symm
    · exact Or.inr ⟨l2, List.mem_cons_of_mem _ hl2, hk⟩

theorem countL_pos_of_mem (ls : List Listener) (l : Listener) (e : String)
    (lid : Nat) (hl : l ∈ ls) (hev : l.event = e)
    (hk : l.kind = .user lid) : 1 ≤ countL ls e lid := by
  induction ls with
  | nil => cases hl
  | cons x rest ih =>
    rcases List.mem_cons.mp hl with rfl | hr
    · have hc : l.event = e ∧ l.kind = LKind.user lid := ⟨hev, hk⟩
      simp only [countL, if_pos hc]
      omega
    · have := ih hr
      simp only [countL]
      omega

/-- A node holding no `(e, user lid)` listener never invokes that
listener on an `e` emission. -/
theorem emitLocal_no_user_invoke (r : Ctrl) (q : List String) (e : String)
    (pl : JSVal) (lid : Nat) (hz : countAt r q e lid = 0) :
    Evt.invoke q e (.user lid) pl ∉ (emitLocal r q e pl).2 := by
  unfold emitLocal
  cases hg : r.getAt q with
  | none => simp
  | some c =>
    simp only []
    intro hmem
    rcases emitFold_invoke_mem q e pl _ _ q e (.user lid) pl hmem with
      h1 | ⟨l, hl, hk⟩
    · exact Evt.noConfusion (List.mem_singleton.mp h1)
    · have hfl := List.mem_filter.mp hl
      have hlev : l.event = e := by
        simpa using hfl.2
      have hpos := countL_pos_of_mem c.data.listeners l e lid hfl.1 hlev hk
      unfold countAt listenersAt at hz
      rw [hg] at hz
      have hz2 : countL c.data.listeners e lid = 0 := hz
      omega

theorem children_deleteOwn (c : Ctrl) (k : String) :
    (c.deleteOwn k).children = c.children := by
  cases c with
  | node d cs => rfl

theorem deleteOwn_listeners (c : Ctrl) (k : String) :
    (c.deleteOwn k).data.listeners = c.data.listeners := by
  cases c with
  | node d cs =>
    show ((Ctrl.node d cs).withData _).data.listeners = _
    unfold Ctrl.withData
    simp only [Ctrl.data]
    cases propsFind d.props k with
    | none => rfl
    | some e =>
      by_cases ha : e.alive = true <;> simp [ha]

theorem children_setChildren (c : Ctrl) (cs : Ctrls) :
    (c.setChildren cs).children = cs := by
  cases c with
  | node d cs2 => rfl

theorem setChildren_listeners (c : Ctrl) (cs : Ctrls) :
    (c.setChildren cs).data.listeners = c.data.listeners := by
  cases c with
  | node d cs2 => rfl

theorem erase_find?_other (cs : Ctrls) (name k : String) (h : k ≠ name) :
    (cs.erase name).find? k = cs.find? k := by
  cases cs with
  | nil => rfl
  | cons n c rest =>
    by_cases hn : n = name
    · subst hn
      have hnk : ¬(n = k) := fun hEq => h hEq.symm
      simp only [Ctrls.erase, if_pos rfl]
      show rest.find? k = if n = k then some c else rest.find? k
      rw [if_neg hnk]
    · simp only [Ctrls.erase, if_neg hn]
      show (if n = k then some c else (rest.erase name).find? k) =
        (if n = k then some c else rest.find? k)
      by_cases hk : n = k
      · rw [if_pos hk, if_pos hk]
      · rw [if_neg hk, if_neg hk]
        exact erase_find?_other rest name k h

theorem find?_none_of_not_contains (cs : Ctrls) (k : String)
    (h : (kidNames cs).contains k = false) : cs.find? k = none := by
  cases cs with
  | nil => rfl
  | cons n c rest =>
    have hsplit : (k == n) = false ∧ (kidNames rest).contains k = false := by
      simpa [kidNames, List.contains_cons] using h
    rw [Ctrls.find?, if_neg (fun hEq => by simp [hEq] at hsplit)]
    exact find?_none_of_not_contains rest k hsplit.2

theorem erase_find?_self (cs : Ctrls) (name : String)
    (hnd : nodupKeys (kidNames cs) = true) :
    (cs.erase name).find? name = none := by
  cases cs with
  | nil => rfl
  | cons n c rest =>
    have hnd2 : ((kidNames rest).contains n = false) ∧
        nodupKeys (kidNames rest) = true := by
      simpa [kidNames, nodupKeys, Bool.and_eq_true] using hnd
    by_cases hn : n = name
    · subst hn
      simp only [Ctrls.erase, if_pos rfl]
      exact find?_none_of_not_contains rest n hnd2.1
    · simp only [Ctrls.erase, if_neg hn]
      rw [Ctrls.find?, if_neg hn]
      exact erase_find?_self rest name hnd2.2

theorem kidNames_stripLs (cs : Ctrls) : kidNames (stripLs cs) = kidNames cs := by
  cases cs with
  | nil => rfl
  | cons n c rest =>
    simp only [stripLs, kidNames]
    rw [kidNames_stripLs rest]

/-- C7: `RemoveChild(name)` with a current child emits `remove` on the
still-attached child first (so its caller-cleanup listeners run against
the live tree), returns without error, detaches the child from the
children mapping and the alias, and every listener registered elsewhere
(outside the removed subtree) with `{caller: child}` — one live matching
registration plus its cleanup closure on the child — is deregistered by
the time the call returns and is never invoked by later emissions of its
event at its node; a name with no current child is a silent no-op. -/
theorem C7_remove_child (root : Ctrl) (π : List String) (name : String) :
    (∀ parent, root.getAt π = some parent →
      parent.children.find? name = none →
      RemoveChildAt root π name = (root, [], false)) ∧
    (∀ parent c, root.getAt π = some parent →
      parent.children.find? name = some c →
      c.shadowed "emit" = false →
      c.shadowed "removeAllListeners" = false →
      nodupKeys (kidNames parent.children) = true →
      (RemoveChildAt root π name).2.1 =
        (emitLocal root (π ++ [name]) "remove" .objRef).2 ∧
      (RemoveChildAt root π name).2.2 = false ∧
      (RemoveChildAt root π name).1.getAt (π ++ [name]) = none ∧
      (∀ q e lid, ¬(π ++ [name] <+: q) →
        countAt root q e lid = 1 →
        (⟨"remove", false, .cleanup q e lid⟩ : Listener) ∈ c.data.listeners →
        countAt (RemoveChildAt root π name).1 q e lid = 0 ∧
        ∀ pl, Evt.invoke q e (.user lid) pl ∉
          (emitLocal (RemoveChildAt root π name).1 q e pl).2)) := by
  constructor
  · intro parent hpar hfind
    rw [RemoveChildAt, hpar]
    simp only []
    rw [hfind]
  · intro parent c hpar hfind hsem hsrl hnd
    have hR : RemoveChildAt root π name =
        ((((emitLocal root (π ++ [name]) "remove" .objRef).1.modAt π
            (fun p => p.setChildren (p.children.erase name))).modAt π
            (fun p => p.deleteOwn name)),
         (emitLocal root (π ++ [name]) "remove" .objRef).2, false) := by
      rw [RemoveChildAt, hpar]
      simp only []
      rw [hfind]
      simp only [hsem, Bool.false_eq_true, if_false, hsrl]
    have hgc : root.getAt (π ++ [name]) = some c := by
      rw [getAt_append, hpar]
      show parent.getAt [name] = some c
      have h1 : parent.getAt [name] =
          (match parent.children.find? name with
           | some ch => Ctrl.getAt ch []
           | none => none) := rfl
      rw [h1, hfind]
      rfl
    have hstrip := stripL_emitLocal root (π ++ [name]) "remove" .objRef
    have hgp : ∃ p2, (emitLocal root (π ++ [name]) "remove" .objRef).1.getAt π
        = some p2 ∧ stripL p2 = stripL parent := by
      have h1 := congrArg (fun r => Ctrl.getAt r π) hstrip
      simp only [getAt_stripL] at h1
      rw [hpar] at h1
      cases hg2 : (emitLocal root (π ++ [name]) "remove" .objRef).1.getAt π with
      | none => rw [hg2] at h1; simp at h1
      | some p2 =>
        rw [hg2] at h1
        have h2 : some (stripL p2) = some (stripL parent) := h1
        injection h2 with h3
        exact ⟨p2, rfl, h3⟩
    obtain ⟨p2, hp2, hp2strip⟩ := hgp
    have hRnode : (RemoveChildAt root π name).1.getAt π =
        some ((p2.setChildren (p2.children.erase name)).deleteOwn name) := by
      rw [hR]
      simp only []
      rw [getAt_modAt_self, getAt_modAt_self, hp2]
      rfl
    have hkidnames : kidNames p2.children = kidNames parent.children := by
      cases p2 with
      | node dp csp =>
        cases parent with
        | node dq csq =>
          show kidNames csp = kidNames csq
          have h4 := congrArg Ctrl.children hp2strip
          simp only [stripL, Ctrl.children] at h4
          rw [← kidNames_stripLs csp, ← kidNames_stripLs csq, h4]
    have hnd2 : nodupKeys (kidNames p2.children) = true := by
      rw [hkidnames]
      exact hnd
    refine ⟨by rw [hR], by rw [hR], ?_, ?_⟩
    · rw [getAt_append, hRnode]
      show ((p2.setChildren (p2.children.erase name)).deleteOwn name).getAt
        [name] = none
      have h5 : ((p2.setChildren (p2.children.erase name)).deleteOwn
          name).children = p2.children.erase name := by
        rw [children_deleteOwn, children_setChildren]
      have h6 : ((p2.setChildren (p2.children.erase name)).deleteOwn
          name).getAt [name] =
          (match ((p2.setChildren (p2.children.erase name)).deleteOwn
            name).children.find? name with
           | some ch => Ctrl.getAt ch []
           | none => none) := rfl
      rw [h6, h5, erase_find?_self _ _ hnd2]
    · intro q e lid hq1 hcnt hcl
      have hqne : q ≠ π ++ [name] := by
        intro he
        apply hq1
        rw [he]
      have hcnt1 : countAt (emitLocal root (π ++ [name]) "remove" .objRef).1
          q e lid = 0 := by
        unfold emitLocal
        rw [hgc]
        simp only []
        apply emitFold_count_zero
        · refine ⟨⟨"remove", false, .cleanup q e lid⟩, ?_, rfl⟩
          exact List.mem_filter.mpr ⟨hcl, by simp⟩
        · have h7 : countAt (root.modAt (π ++ [name]) (fun n =>
              n.setListeners (n.data.listeners.filter
                (fun l => !(l.event == "remove" && l.once))))) q e lid =
              countAt root q e lid := by
            unfold countAt
            rw [listenersAt_modAt_ne _ _ _
              (fun c2 => children_setListeners c2 _) hqne]
          rw [h7, hcnt]
      have hstab1 : countAt ((emitLocal root (π ++ [name]) "remove"
          .objRef).1.modAt π
          (fun p => p.setChildren (p.children.erase name))) q e lid =
          countAt (emitLocal root (π ++ [name]) "remove" .objRef).1
            q e lid := by
        unfold countAt
        rw [listenersAt_modAt_except π q name _
          (fun c2 => setChildren_listeners c2 _)
          (fun c2 k hk => by
            rw [children_setChildren]
            exact erase_find?_other c2.children name k hk) hq1]
      have hstab2 : countAt (RemoveChildAt root π name).1 q e lid =
          countAt ((emitLocal root (π ++ [name]) "remove" .objRef).1.modAt π
            (fun p => p.setChildren (p.children.erase name))) q e lid := by
        rw [hR]
        unfold countAt
        rw [listenersAt_modAt_except π q name _
          (fun c2 => deleteOwn_listeners c2 _)
          (fun c2 k hk => by rw [children_deleteOwn]) hq1]
      have hzero : countAt (RemoveChildAt root π name).1 q e lid = 0 := by
        rw [hstab2, hstab1, hcnt1]
      exact ⟨hzero, fun pl => emitLocal_no_user_invoke _ q e pl lid hzero⟩

theorem C7_witness :
    RemoveChildAt c7root [] "y" = (c7root, [], false) ∧
    (RemoveChildAt c7root [] "x").2.1 =
      (emitLocal c7root ["x"] "remove" .objRef).2 ∧
    (RemoveChildAt c7root [] "x").2.2 = false ∧
    (RemoveChildAt c7root [] "x").1.getAt ["x"] = none ∧
    countAt (RemoveChildAt c7root [] "x").1 [] "e" 7 = 0 ∧
    Evt.invoke [] "e" (.user 7) (.num 1) ∉
      (emitLocal (RemoveChildAt c7root [] "x").1 [] "e" (.num 1)).2 := by
  have hy := (C7_remove_child c7root [] "y").1 c7root rfl rfl
  have hx := (C7_remove_child c7root [] "x").2 c7root c7x rfl rfl rfl rfl rfl
  have hq1 : ¬((["x"] : List String) <+: ([] : List String)) := by
    intro h
    have := h.length_le
    simp at this
  have hcl := hx.2.2.2 [] "e" 7 hq1 rfl (List.mem_cons_self _ _)
  exact ⟨hy, hx.1, hx.2.1, hx.2.2.1, hcl.1, hcl.2 (.num 1)⟩

/-! ## Flat `Set` idempotence -/

theorem settable_not_nullish (v : JSVal) (h : settableType v = true) :
    isNullish v = false := by
  cases v <;> simp [settableType, isNullish] at h ⊢

theorem settable_not_null_eq (v : JSVal) (h : settableType v = true) :
    looseEq v .null = false := by
  cases v <;> first
    | rfl
    | simp [settableType] at h

theorem modify_modify (cs : Ctrls) (a : String) (f g : Ctrl → Ctrl) :
    (cs.modify a f).modify a g = cs.modify a (fun x => g (f x)) := by
  cases cs with
  | nil => rfl
  | cons n c rest =>
    by_cases hn : n = a
    · simp only [Ctrls.modify, if_pos hn]
    · simp only [Ctrls.modify, if_neg hn]
      rw [modify_modify rest a f g]

theorem modify_id (cs : Ctrls) (k : String) : cs.modify k (fun x => x) = cs := by
  cases cs with
  | nil => rfl
  | cons n c rest =>
    by_cases hn : n = k
    · simp only [Ctrls.modify, if_pos hn]
    · simp only [Ctrls.modify, if_neg hn]
      rw [modify_id rest k]

theorem modify_missing (cs : Ctrls) (k : String) (F : Ctrl → Ctrl)
    (h : cs.find? k = none) : cs.modify k F = cs := by
  cases cs with
  | nil => rfl
  | cons n c rest =>
    by_cases hn : n = k
    · simp [Ctrls.find?, hn] at h
    · simp only [Ctrls.modify, if_neg hn]
      simp only [Ctrls.find?, if_neg hn] at h
      rw [modify_missing rest k F h]

theorem modify_congr_at (cs : Ctrls) (k : String) (F G : Ctrl → Ctrl)
    (ch : Ctrl) (hfind : cs.find? k = some ch) (h : F ch = G ch) :
    cs.modify k F = cs.modify k G := by
  cases cs with
  | nil => rfl
  | cons n c rest =>
    by_cases hn : n = k
    · have hc : c = ch := by
        simpa [Ctrls.find?, hn] using hfind
      subst hc
      simp only [Ctrls.modify, if_pos hn, h]
    · simp only [Ctrls.modify, if_neg hn]
      simp only [Ctrls.find?, if_neg hn] at hfind
      rw [modify_congr_at rest k F G ch hfind h]

theorem modAt_modAt (π : List String) (f g : Ctrl → Ctrl) (r : Ctrl) :
    (r.modAt π f).modAt π g = r.modAt π (fun x => g (f x)) := by
  cases π with
  | nil =>
    cases r with
    | node d cs =>
      show (f (Ctrl.node d cs)).modAt [] g = g (f (Ctrl.node d cs))
      cases f (Ctrl.node d cs) with
      | node d2 cs2 => rfl
  | cons a π2 =>
    cases r with
    | node d cs =>
      show Ctrl.node d ((cs.modify a (fun ch => ch.modAt π2 f)).modify a
          (fun ch => ch.modAt π2 g)) = Ctrl.node d (cs.modify a
          (fun ch => ch.modAt π2 (fun x => g (f x))))
      rw [modify_modify]
      have hFG : (fun x => (x.modAt π2 f).modAt π2 g) =
          (fun ch : Ctrl => ch.modAt π2 (fun x => g (f x))) :=
        funext (fun ch => modAt_modAt π2 f g ch)
      rw [hFG]

theorem modAt_id (π : List String) (r : Ctrl) :
    r.modAt π (fun x => x) = r := by
  cases π with
  | nil =>
    cases r with
    | node d cs => rfl
  | cons a π2 =>
    cases r with
    | node d cs =>
      show Ctrl.node d (cs.modify a (fun ch => ch.modAt π2 (fun x => x))) =
        Ctrl.node d cs
      have h : (fun ch => ch.modAt π2 (fun x => x)) = (fun ch : Ctrl => ch) :=
        funext (fun ch => modAt_id π2 ch)
      rw [h, modify_id]

theorem modAt_congr (π : List String) (f g : Ctrl → Ctrl) (r c : Ctrl)
    (hc : r.getAt π = some c) (hfg : f c = g c) :
    r.modAt π f = r.modAt π g := by
  cases π with
  | nil =>
    cases r with
    | node d cs =>
      have hrc : Ctrl.node d cs = c := by
        have h1 : some (Ctrl.node d cs) = some c := hc
        injection h1
      show f (Ctrl.node d cs) = g (Ctrl.node d cs)
      rw [hrc]
      exact hfg
  | cons a π2 =>
    cases r with
    | node d cs =>
      cases hfind : cs.find? a with
      | none =>
        show Ctrl.node d (cs.modify a _) = Ctrl.node d (cs.modify a _)
        rw [modify_missing _ _ _ hfind, modify_missing _ _ _ hfind]
      | some ch =>
        have hc2 : ch.getAt π2 = some c := by
          have h1 : (Ctrl.node d cs).getAt (a :: π2) =
              (match cs.find? a with
               | some ch => ch.getAt π2
               | none => none) := rfl
          rw [h1, hfind] at hc
          exact hc
        show Ctrl.node d (cs.modify a _) = Ctrl.node d (cs.modify a _)
        congr 1
        exact modify_congr_at cs a _ _ ch hfind
          (modAt_congr π2 f g ch c hc2 hfg)

theorem modAt_congr_id (π : List String) (f : Ctrl → Ctrl) (r c : Ctrl)
    (hc : r.getAt π = some c) (hf : f c = c) : r.modAt π f = r := by
  rw [modAt_congr π f (fun x => x) r c hc hf, modAt_id]

theorem stripL_setPropVal_comm (c : Ctrl) (k : String) (v : JSVal) :
    stripL (c.setPropVal k v) = (stripL c).setPropVal k v := by
  cases c with
  | node d cs => rfl

theorem stripLs_modify_comm (cs : Ctrls) (k : String) (f g : Ctrl → Ctrl)
    (h : ∀ c, stripL (f c) = g (stripL c)) :
    stripLs (cs.modify k f) = (stripLs cs).modify k g := by
  cases cs with
  | nil => rfl
  | cons n c rest =>
    by_cases hn : n = k
    · simp only [Ctrls.modify, if_pos hn, stripLs, h]
    · simp only [Ctrls.modify, if_neg hn, stripLs]
      rw [stripLs_modify_comm rest k f g h]

theorem stripL_modAt_comm (π : List String) (f g : Ctrl → Ctrl)
    (h : ∀ c, stripL (f c) = g (stripL c)) (r : Ctrl) :
    stripL (r.modAt π f) = (stripL r).modAt π g := by
  cases π with
  | nil =>
    cases r with
    | node d cs =>
      show stripL (f (Ctrl.node d cs)) = (stripL (Ctrl.node d cs)).modAt [] g
      rw [h]
      cases stripL (Ctrl.node d cs) with
      | node d2 cs2 => rfl
  | cons a π2 =>
    cases r with
    | node d cs =>
      show stripL (Ctrl.node d (cs.modify a (fun ch => ch.modAt π2 f))) = _
      simp only [stripL]
      rw [stripLs_modify_comm cs a (fun ch => ch.modAt π2 f)
        (fun ch => ch.modAt π2 g) (fun c => stripL_modAt_comm π2 f g h c)]
      rfl

theorem writeKeys_step_comm (k : String) (v : JSVal) (c : Ctrl) :
    stripL (if looseEq (c.rawProp k) v then c else c.setPropVal k v) =
      (if looseEq ((stripL c).rawProp k) v then stripL c
       else (stripL c).setPropVal k v) := by
  rw [rawProp_stripL]
  by_cases h : looseEq (c.rawProp k) v = true
  · rw [if_pos h, if_pos h]
  · rw [if_neg h, if_neg h]
    exact stripL_setPropVal_comm c k v

theorem writeKeys_comm (l : List (String × JSVal)) (c : Ctrl) :
    stripL (writeKeys c l) = writeKeys (stripL c) l := by
  induction l generalizing c with
  | nil => rfl
  | cons kv rest ih =>
    obtain ⟨k, v⟩ := kv
    show stripL (writeKeys (if looseEq (c.rawProp k) v then c
      else c.setPropVal k v) rest) = writeKeys (if looseEq
      ((stripL c).rawProp k) v then stripL c
      else (stripL c).setPropVal k v) rest
    rw [ih, writeKeys_step_comm]

theorem data_props_setBypass (c : Ctrl) (b : Bool) :
    (c.setBypass b).data.props = c.data.props := by
  rw [data_setBypass]

theorem writeKeys_acl (l : List (String × JSVal)) (c : Ctrl) :
    (writeKeys c l).data.acl = c.data.acl := by
  induction l generalizing c with
  | nil => rfl
  | cons kv rest ih =>
    obtain ⟨k, v⟩ := kv
    show (writeKeys (if looseEq (c.rawProp k) v then c
      else c.setPropVal k v) rest).data.acl = c.data.acl
    rw [ih]
    by_cases h : looseEq (c.rawProp k) v = true
    · rw [if_pos h]
    · rw [if_neg h, data_setPropVal]

theorem writeKeys_shadowed (l : List (String × JSVal)) (c : Ctrl)
    (m : String) : (writeKeys c l).shadowed m = c.shadowed m := by
  induction l generalizing c with
  | nil => rfl
  | cons kv rest ih =>
    obtain ⟨k, v⟩ := kv
    show (writeKeys (if looseEq (c.rawProp k) v then c
      else c.setPropVal k v) rest).shadowed m = c.shadowed m
    rw [ih]
    by_cases h : looseEq (c.rawProp k) v = true
    · rw [if_pos h]
    · rw [if_neg h, shadowed_setPropVal]

theorem writeKeys_props_other (l : List (String × JSVal)) (c : Ctrl)
    (k : String) (h : ∀ kv ∈ l, kv.1 ≠ k) :
    propsFind (writeKeys c l).data.props k = propsFind c.data.props k := by
  induction l generalizing c with
  | nil => rfl
  | cons kv rest ih =>
    obtain ⟨k2, v⟩ := kv
    have hk2 : k2 ≠ k := h (k2, v) (List.mem_cons_self _ _)
    show propsFind (writeKeys (if looseEq (c.rawProp k2) v then c
      else c.setPropVal k2 v) rest).data.props k = propsFind c.data.props k
    rw [ih _ (fun kv hkv => h kv (List.mem_cons_of_mem _ hkv))]
    by_cases hg : looseEq (c.rawProp k2) v = true
    · rw [if_pos hg]
    · rw [if_neg hg, data_setPropVal]
      exact propsFind_setVal_other _ _ _ _ (fun hEq => hk2 hEq.symm)

theorem writeKeys_entry (l : List (String × JSVal)) (c : Ctrl) (k : String)
    (v : JSVal) (hmem : (k, v) ∈ l) (hnd : (l.map Prod.fst).Nodup)
    (he : ∃ e, propsFind c.data.props k = some e ∧ e.alive = true ∧
      settableType e.pval = true ∧ isNullish e.pval = false)
    (hsv : settableType v = true) (hrefl : looseEq v v = true) :
    ∃ e1, propsFind (writeKeys c l).data.props k = some e1 ∧
      e1.alive = true ∧ looseEq e1.pval v = true ∧
      settableType e1.pval = true ∧ isNullish e1.pval = false := by
  induction l generalizing c with
  | nil => cases hmem
  | cons kv rest ih =>
    obtain ⟨k2, v2⟩ := kv
    rw [List.map_cons, List.nodup_cons] at hnd
    obtain ⟨e, hef, heal, hesv, henn⟩ := he
    rcases List.mem_cons.mp hmem with hEq | hrest
    · injection hEq with hk hv
      subst hk
      subst hv
      have hnotin : ∀ kv2 ∈ rest, kv2.1 ≠ k := by
        intro kv2 hkv2 hEq2
        apply hnd.1
        rw [← hEq2]
        exact List.mem_map.mpr ⟨kv2, hkv2, rfl⟩
      show ∃ e1, propsFind (writeKeys (if looseEq (c.rawProp k) v then c
        else c.setPropVal k v) rest).data.props k = some e1 ∧ _
      rw [writeKeys_props_other rest _ k hnotin]
      by_cases hg : looseEq (c.rawProp k) v = true
      · rw [if_pos hg]
        refine ⟨e, hef, heal, ?_, hesv, henn⟩
        rw [rawProp_of_find c k e hef] at hg
        exact hg
      · rw [if_neg hg, data_setPropVal]
        refine ⟨{ e with pval := v }, ?_, heal, hrefl, hsv,
          settable_not_nullish v hsv⟩
        show propsFind (propsSetVal c.data.props k v) k = some { e with pval := v }
        rw [propsFind_setVal_self, hef]
        rfl
    · have hk2k : k2 ≠ k := by
        intro hEq
        apply hnd.1
        rw [hEq]
        exact List.mem_map.mpr ⟨(k, v), hrest, rfl⟩
      show ∃ e1, propsFind (writeKeys (if looseEq (c.rawProp k2) v2 then c
        else c.setPropVal k2 v2) rest).data.props k = some e1 ∧ _
      apply ih _ hrest hnd.2
      by_cases hg : looseEq (c.rawProp k2) v2 = true
      · rw [if_pos hg]
        exact ⟨e, hef, heal, hesv, henn⟩
      · rw [if_neg hg, data_setPropVal]
        refine ⟨e, ?_, heal, hesv, henn⟩
        show propsFind (propsSetVal c.data.props k2 v2) k = some e
        rw [propsFind_setVal_other _ _ _ _ (fun hEq => hk2k hEq.symm)]
        exact hef

theorem setBypass_setBypass (c : Ctrl) (a b : Bool) :
    (c.setBypass a).setBypass b = c.setBypass b := by
  cases c with
  | node d cs => rfl

theorem setBypass_id (c : Ctrl) (hbp : c.data.bypassNotify = false) :
    c.setBypass false = c := by
  cases c with
  | node d cs =>
    cases d with
    | mk cn pr fl ac li bp =>
      have hbp2 : bp = false := hbp
      subst hbp2
      rfl

/-- One good key of a flat `Set`: no error, the data state changes by at
most the equality-gated registry write, and the node keeps `_bypassNotify`
clear. -/
theorem setKeyF_flat (f : Nat) (env : Env) (root : Ctrl) (π : List String)
    (k : String) (v : JSVal) (c : Ctrl)
    (hc : root.getAt π = some c) (hbp : c.data.bypassNotify = false)
    (hsem : c.shadowed "emit" = false) (hgk : goodKey c k v) :
    (setKeyF (f + 1) env root π k v).2.2 = false ∧
    stripL (setKeyF (f + 1) env root π k v).1 =
      stripL (root.modAt π (fun n =>
        if looseEq (n.rawProp k) v then n else n.setPropVal k v)) ∧
    ∃ c1, (setKeyF (f + 1) env root π k v).1.getAt π = some c1 ∧
      c1.data.bypassNotify = false := by
  obtain ⟨hkr, hku, hkc, hsv, hrefl, hgetter, hsetc, hsetter,
    e, hef, heal, hesv, henn⟩ := hgk
  have hgp : c.getP k = e.pval := getP_alive_pass c k e hef heal hgetter
  have hdef : looseEq (c.getP k) .undef = false := by
    rw [hgp, looseEq_undef_right, henn]
  have hst : settableType (c.getP k) = true := by
    rw [hgp]
    exact hesv
  have hvn : looseEq v .null = false := settable_not_null_eq v hsv
  rw [setKeyF_prop_branch f env root π k v c hc hkr hku hkc hdef hst hsetc hvn]
  have hcrb : (root.modAt π (fun n => n.setBypass true)).getAt π =
      some (c.setBypass true) := by
    rw [getAt_modAt_self, hc]
    rfl
  have hefb : propsFind (c.setBypass true).data.props k = some e := by
    rw [data_setBypass]
    exact hef
  rw [assignAt_alive _ π k v (c.setBypass true) e hcrb hefb heal]
  have hraw : (c.setBypass true).rawProp k = e.pval := by
    rw [rawProp_setBypass]
    exact rawProp_of_find c k e hef
  by_cases hveq : looseEq e.pval v = true
  · have heq : setterAt (root.modAt π (fun n => n.setBypass true)) π k v =
        ((root.modAt π (fun n => n.setBypass true)).modAt π
          (fun n => n.setBypass false), [], false) := by
      rw [setterAt, hcrb]
      simp only [hraw, hveq, Bool.not_true, Bool.false_eq_true, if_false]
    rw [heq]
    refine ⟨rfl, ?_, ?_⟩
    · rw [modAt_modAt]
      rw [modAt_congr_id π _ root c hc
        (by rw [setBypass_setBypass, setBypass_id c hbp])]
      rw [modAt_congr_id π _ root c hc
        (by rw [rawProp_of_find c k e hef, if_pos hveq])]
    · refine ⟨(c.setBypass true).setBypass false, ?_, ?_⟩
      · rw [modAt_modAt, getAt_modAt_self, hc]
        rfl
      · rw [data_setBypass]
  · have hneq : looseEq ((c.setBypass true).rawProp k) v = false := by
      rw [hraw]
      cases h2 : looseEq e.pval v with
      | false => rfl
      | true => exact absurd h2 hveq
    have hsetter2 : chanPass (aclFind (c.setBypass true).data.acl k)
        AclEntry.aclSetter = true := by
      rw [data_setBypass]
      exact hsetter
    have hbp2 : (c.setBypass true).data.bypassNotify = true := by
      rw [data_setBypass]
    have hsem2 : (c.setBypass true).shadowed "emit" = false := by
      rw [shadowed_setBypass]
      exact hsem
    rw [setterAt_bypassed _ π k v (c.setBypass true) hcrb hneq hsetter2
      hbp2 hsem2]
    have hstripR2 : stripL (((root.modAt π (fun n => n.setBypass true)).modAt
        π (fun n => n.setPropVal k v)).modAt π (fun n => n.setBypass false)) =
        stripL (root.modAt π (fun n =>
          if looseEq (n.rawProp k) v then n else n.setPropVal k v)) := by
      rw [stripL_modAt_setBypass, modAt_modAt]
      rw [stripL_modAt_comm π (fun x => (x.setBypass true).setPropVal k v)
        (fun y => y.setPropVal k v)
        (fun x => by rw [stripL_setPropVal_comm, stripL_setBypass]) root]
      rw [stripL_modAt_comm π (fun n =>
          if looseEq (n.rawProp k) v then n else n.setPropVal k v)
        (fun n => if looseEq (n.rawProp k) v then n else n.setPropVal k v)
        (fun x => writeKeys_step_comm k v x) root]
      apply modAt_congr π _ _ (stripL root) (stripL c)
      · rw [getAt_stripL, hc]
        rfl
      · rw [rawProp_stripL, rawProp_of_find c k e hef]
        rw [if_neg (fun h2 => hveq h2)]
    refine ⟨rfl, ?_, ?_⟩
    · rw [stripL_modAt_setBypass, stripL_emitLocal]
      exact hstripR2
    · have hR2get : (((root.modAt π (fun n => n.setBypass true)).modAt π
          (fun n => n.setPropVal k v)).modAt π
          (fun n => n.setBypass false)).getAt π =
          some (((c.setBypass true).setPropVal k v).setBypass false) := by
        rw [getAt_modAt_self, getAt_modAt_self, getAt_modAt_self, hc]
        rfl
      have hsE : stripL (emitLocal (((root.modAt π
          (fun n => n.setBypass true)).modAt π
          (fun n => n.setPropVal k v)).modAt π
          (fun n => n.setBypass false)) π k v).1 =
          stripL (((root.modAt π (fun n => n.setBypass true)).modAt π
          (fun n => n.setPropVal k v)).modAt π (fun n => n.setBypass false)) :=
        stripL_emitLocal _ _ _ _
      have hsome := getAt_isSome_congr _ _ hsE π
      rw [hR2get] at hsome
      simp only [Option.isSome_some] at hsome
      cases hcE : (emitLocal (((root.modAt π
          (fun n => n.setBypass true)).modAt π
          (fun n => n.setPropVal k v)).modAt π
          (fun n => n.setBypass false)) π k v).1.getAt π with
      | none => rw [hcE] at hsome; simp at hsome
      | some cE =>
        refine ⟨cE.setBypass false, ?_, ?_⟩
        · rw [getAt_modAt_self, hcE]
          rfl
        · rw [data_setBypass]

/-- One good key whose value already loosely equals the stored one is an
exact no-op. -/
theorem setKeyF_gated (f : Nat) (env : Env) (root : Ctrl) (π : List String)
    (k : String) (v : JSVal) (c : Ctrl)
    (hc : root.getAt π = some c) (hbp : c.data.bypassNotify = false)
    (hgk : goodKey c k v)
    (hveq : ∃ e, propsFind c.data.props k = some e ∧ looseEq e.pval v = true) :
    setKeyF (f + 1) env root π k v = (root, [], false) := by
  obtain ⟨hkr, hku, hkc, hsv, hrefl, hgetter, hsetc, hsetter,
    e, hef, heal, hesv, henn⟩ := hgk
  obtain ⟨e2, hef2, heq2⟩ := hveq
  have hee : e2 = e := by
    rw [hef] at hef2
    injection hef2 with h3
    exact h3.symm
  subst hee
  have hgp : c.getP k = e2.pval := getP_alive_pass c k e2 hef heal hgetter
  have hdef : looseEq (c.getP k) .undef = false := by
    rw [hgp, looseEq_undef_right, henn]
  have hst : settableType (c.getP k) = true := by
    rw [hgp]
    exact hesv
  have hvn : looseEq v .null = false := settable_not_null_eq v hsv
  rw [setKeyF_prop_branch f env root π k v c hc hkr hku hkc hdef hst hsetc hvn]
  have hcrb : (root.modAt π (fun n => n.setBypass true)).getAt π =
      some (c.setBypass true) := by
    rw [getAt_modAt_self, hc]
    rfl
  have hefb : propsFind (c.setBypass true).data.props k = some e2 := by
    rw [data_setBypass]
    exact hef
  rw [assignAt_alive _ π k v (c.setBypass true) e2 hcrb hefb heal]
  have hraw : (c.setBypass true).rawProp k = e2.pval := by
    rw [rawProp_setBypass]
    exact rawProp_of_find c k e2 hef
  rw [setterAt, hcrb]
  simp only [hraw, heq2, Bool.not_true, Bool.false_eq_true, if_false]
  rw [modAt_modAt]
  rw [modAt_congr_id π _ root c hc
    (by rw [setBypass_setBypass, setBypass_id c hbp])]

theorem stripL_node_transport (r1 r2 : Ctrl) (π : List String) (c1 c2 : Ctrl)
    (hs : stripL r1 = stripL r2) (h1 : r1.getAt π = some c1)
    (h2 : r2.getAt π = some c2) : stripL c1 = stripL c2 := by
  have h3 := congrArg (fun r => Ctrl.getAt r π) hs
  simp only [getAt_stripL] at h3
  rw [h1, h2] at h3
  have h4 : some (stripL c1) = some (stripL c2) := h3
  injection h4

/-- A flat list of good keys: no error, the data state is the iterated
equality-gated registry write, `_bypassNotify` stays clear. -/
theorem setKeysF_flat (l : List (String × JSVal)) (f : Nat) (env : Env)
    (root : Ctrl) (π : List String) (c : Ctrl)
    (hf : l.length + 1 ≤ f)
    (hc : root.getAt π = some c) (hbp : c.data.bypassNotify = false)
    (hsem : c.shadowed "emit" = false)
    (hnd : (l.map Prod.fst).Nodup)
    (hkv : ∀ kv ∈ l, goodKey c kv.1 kv.2) :
    (setKeysF f env root π l).2.2 = false ∧
    stripL (setKeysF f env root π l).1 =
      stripL (root.modAt π (fun n => writeKeys n l)) ∧
    ∃ c1, (setKeysF f env root π l).1.getAt π = some c1 ∧
      c1.data.bypassNotify = false := by
  cases l with
  | nil =>
    cases f with
    | zero => omega
    | succ f2 =>
      refine ⟨rfl, ?_, c, hc, hbp⟩
      rw [modAt_congr_id π (fun n => writeKeys n []) root c hc rfl]
      rfl
  | cons kv rest =>
    obtain ⟨k, v⟩ := kv
    cases f with
    | zero => simp at hf
    | succ f2 =>
      cases f2 with
      | zero => simp at hf
      | succ f3 =>
        have hkey := setKeyF_flat f3 env root π k v c hc hbp hsem
          (hkv (k, v) (List.mem_cons_self _ _))
        obtain ⟨herr1, hstrip1, c1, hc1, hbp1⟩ := hkey
        have hW1c : (root.modAt π (fun n =>
            if looseEq (n.rawProp k) v then n else n.setPropVal k v)).getAt π =
            some (if looseEq (c.rawProp k) v then c else c.setPropVal k v) := by
          rw [getAt_modAt_self, hc]
          rfl
        have hsc1 : stripL c1 = stripL (if looseEq (c.rawProp k) v then c
            else c.setPropVal k v) :=
          stripL_node_transport _ _ π _ _ hstrip1 hc1 hW1c
        have hprops : c1.data.props = (if looseEq (c.rawProp k) v then c
            else c.setPropVal k v).data.props := by
          calc c1.data.props = (stripL c1).data.props :=
                (data_props_stripL c1).symm
            _ = (stripL (if looseEq (c.rawProp k) v then c
                else c.setPropVal k v)).data.props := by rw [hsc1]
            _ = _ := data_props_stripL _
        have hacl : c1.data.acl = c.data.acl := by
          calc c1.data.acl = (stripL c1).data.acl := (data_acl_stripL c1).symm
            _ = (stripL (if looseEq (c.rawProp k) v then c
                else c.setPropVal k v)).data.acl := by rw [hsc1]
            _ = (if looseEq (c.rawProp k) v then c
                else c.setPropVal k v).data.acl := data_acl_stripL _
            _ = c.data.acl := by
                by_cases hg : looseEq (c.rawProp k) v = true
                · rw [if_pos hg]
                · rw [if_neg hg, data_setPropVal]
        have hshad : ∀ m, c1.shadowed m = c.shadowed m := by
          intro m
          calc c1.shadowed m = (stripL c1).shadowed m :=
                (shadowed_stripL c1 m).symm
            _ = (stripL (if looseEq (c.rawProp k) v then c
                else c.setPropVal k v)).shadowed m := by rw [hsc1]
            _ = (if looseEq (c.rawProp k) v then c
                else c.setPropVal k v).shadowed m := shadowed_stripL _ m
            _ = c.shadowed m := by
                by_cases hg : looseEq (c.rawProp k) v = true
                · rw [if_pos hg]
                · rw [if_neg hg, shadowed_setPropVal]
        have hpf : ∀ k2, k2 ≠ k → propsFind c1.data.props k2 =
            propsFind c.data.props k2 := by
          intro k2 hk2
          rw [hprops]
          by_cases hg : looseEq (c.rawProp k) v = true
          · rw [if_pos hg]
          · rw [if_neg hg, data_setPropVal]
            exact propsFind_setVal_other _ _ _ _ hk2
        rw [List.map_cons, List.nodup_cons] at hnd
        have hkv2 : ∀ kv2 ∈ rest, goodKey c1 kv2.1 kv2.2 := by
          intro kv2 hkv2m
          obtain ⟨a1, a2, a3, a4, a5, a6, a7, a8, e2, he2, he2al, he2sv,
            he2nn⟩ := hkv kv2 (List.mem_cons_of_mem _ hkv2m)
          have hk2ne : kv2.1 ≠ k := by
            intro hEq
            exact hnd.1 (hEq ▸ List.mem_map.mpr ⟨kv2, hkv2m, rfl⟩)
          exact ⟨a1, a2, a3, a4, a5,
            by rw [hacl]; exact a6,
            by rw [hacl]; exact a7,
            by rw [hacl]; exact a8,
            e2, by rw [hpf kv2.1 hk2ne]; exact he2, he2al, he2sv, he2nn⟩
        have hsem1 : c1.shadowed "emit" = false := by
          rw [hshad]
          exact hsem
        have hrest := setKeysF_flat rest (f3 + 1) env
          (setKeyF (f3 + 1) env root π k v).1 π c1
          (by simp at hf; omega) hc1 hbp1 hsem1 hnd.2 hkv2
        obtain ⟨herr2, hstrip2, c2, hc2, hbp2⟩ := hrest
        have hconv : stripL ((setKeyF (f3 + 1) env root π k v).1.modAt π
            (fun n => writeKeys n rest)) =
            stripL (root.modAt π (fun n => writeKeys n ((k, v) :: rest))) := by
          rw [stripL_modAt_comm π (fun n => writeKeys n rest)
              (fun n => writeKeys n rest) (fun x => writeKeys_comm rest x)]
          rw [hstrip1]
          rw [stripL_modAt_comm π (fun n =>
              if looseEq (n.rawProp k) v then n else n.setPropVal k v)
              (fun n =>
              if looseEq (n.rawProp k) v then n else n.setPropVal k v)
              (fun x => writeKeys_step_comm k v x)]
          rw [modAt_modAt]
          rw [stripL_modAt_comm π (fun n => writeKeys n ((k, v) :: rest))
              (fun n => writeKeys n ((k, v) :: rest))
              (fun x => writeKeys_comm ((k, v) :: rest) x)]
          rfl
        have hstep : setKeysF (f3 + 1 + 1) env root π ((k, v) :: rest) =
            (let s1 := setKeyF (f3 + 1) env root π k v
             if s1.2.2 then s1
             else
               let s2 := setKeysF (f3 + 1) env s1.1 π rest
               (s2.1, s1.2.1 ++ s2.2.1, s2.2.2)) := by
          rw [setKeysF]
        rw [hstep]
        simp only [herr1, Bool.false_eq_true, if_false]
        exact ⟨herr2, hstrip2.trans hconv, c2, hc2, hbp2⟩

/-- A flat list of good keys whose values all loosely equal the stored
ones: `setKeys` is an exact no-op. -/
theorem setKeysF_gated (l : List (String × JSVal)) (f : Nat) (env : Env)
    (root : Ctrl) (π : List String) (c : Ctrl)
    (hf : l.length + 1 ≤ f)
    (hc : root.getAt π = some c) (hbp : c.data.bypassNotify = false)
    (hkv : ∀ kv ∈ l, goodKey c kv.1 kv.2)
    (hveq : ∀ kv ∈ l, ∃ e, propsFind c.data.props kv.1 = some e ∧
      looseEq e.pval kv.2 = true) :
    setKeysF f env root π l = (root, [], false) := by
  cases l with
  | nil =>
    cases f with
    | zero => omega
    | succ f2 => rfl
  | cons kv rest =>
    obtain ⟨k, v⟩ := kv
    cases f with
    | zero => simp at hf
    | succ f2 =>
      cases f2 with
      | zero => simp at hf
      | succ f3 =>
        have hkey := setKeyF_gated f3 env root π k v c hc hbp
          (hkv (k, v) (List.mem_cons_self _ _))
          (hveq (k, v) (List.mem_cons_self _ _))
        have hrest := setKeysF_gated rest (f3 + 1) env root π c
          (by simp at hf; omega) hc hbp
          (fun kv2 h2 => hkv kv2 (List.mem_cons_of_mem _ h2))
          (fun kv2 h2 => hveq kv2 (List.mem_cons_of_mem _ h2))
        have hstep : setKeysF (f3 + 1 + 1) env root π ((k, v) :: rest) =
            (let s1 := setKeyF (f3 + 1) env root π k v
             if s1.2.2 then s1
             else
               let s2 := setKeysF (f3 + 1) env s1.1 π rest
               (s2.1, s1.2.1 ++ s2.2.1, s2.2.2)) := by
          rw [setKeysF]
        rw [hstep, hkey]
        simp only []
        rw [hrest]
        rfl

theorem jsfieldsSize_ge_length (flds : List (String × JSVal)) :
    flds.length ≤ jsfieldsSize flds := by
  induction flds with
  | nil => exact Nat.le_refl _
  | cons p rest ih =>
    have hp := jsvalSize_pos p.2
    simp only [jsfieldsSize, List.length_cons]
    omega

theorem SetF_flat (flds : List (String × JSVal)) (f : Nat) (env : Env)
    (root : Ctrl) (π : List String) (c : Ctrl)
    (hf : flds.length + 2 ≤ f)
    (hc : root.getAt π = some c) (hbp : c.data.bypassNotify = false)
    (hss : c.shadowed "Set" = false) (hsem : c.shadowed "emit" = false)
    (hnd : (flds.map Prod.fst).Nodup)
    (hkv : ∀ kv ∈ flds, goodKey c kv.1 kv.2) :
    (SetF f env root π (.obj flds)).2.2 = false ∧
    stripL (SetF f env root π (.obj flds)).1 =
      stripL (root.modAt π (fun n => writeKeys n flds)) ∧
    ∃ c1, (SetF f env root π (.obj flds)).1.getAt π = some c1 ∧
      c1.data.bypassNotify = false := by
  cases f with
  | zero => omega
  | succ f2 =>
    have hred : SetF (f2 + 1) env root π (.obj flds) =
        setKeysF f2 env root π flds := by
      rw [SetF, hc]
      simp only [hss, Bool.false_eq_true, if_false]
      have h1 : (truthy (.obj flds) && isObjectLike (.obj flds)) = true := rfl
      rw [h1]
      simp only [if_true, jsEntries]
    rw [hred]
    exact setKeysF_flat flds f2 env root π c (by omega) hc hbp hsem hnd hkv

theorem SetF_gated (flds : List (String × JSVal)) (f : Nat) (env : Env)
    (root : Ctrl) (π : List String) (c : Ctrl)
    (hf : flds.length + 2 ≤ f)
    (hc : root.getAt π = some c) (hbp : c.data.bypassNotify = false)
    (hss : c.shadowed "Set" = false)
    (hkv : ∀ kv ∈ flds, goodKey c kv.1 kv.2)
    (hveq : ∀ kv ∈ flds, ∃ e, propsFind c.data.props kv.1 = some e ∧
      looseEq e.pval kv.2 = true) :
    SetF f env root π (.obj flds) = (root, [], false) := by
  cases f with
  | zero => omega
  | succ f2 =>
    have hred : SetF (f2 + 1) env root π (.obj flds) =
        setKeysF f2 env root π flds := by
      rw [SetF, hc]
      simp only [hss, Bool.false_eq_true, if_false]
      have h1 : (truthy (.obj flds) && isObjectLike (.obj flds)) = true := rfl
      rw [h1]
      simp only [if_true, jsEntries]
    rw [hred]
    exact setKeysF_gated flds f2 env root π c (by omega) hc hbp hkv hveq

/-- C8 counterexample: `{emit: {controlType: 'room'}, windows: 9}` applied
to a fresh `room` names a child after the prototype method `emit`.  The
first pass aborts with a TypeError before the `windows` key (the created
alias shadows `emit`), leaving `windows = 2`; the second pass forwards the
`emit` key to the existing child and then stores `windows = 9` before its
own TypeError, so the two `Get` results differ. -/
theorem C8_counterexample :
    Ctrl.Get (SetAt envDemo c8room [] d8).1 false =
      .ok [("controlType", .str "room"), ("hideData", .bool false),
           ("windows", .num 2),
           ("emit", .obj [("controlType", .str "room"),
             ("hideData", .bool false), ("doors", .num 1),
             ("windows", .num 1)])] ∧
    Ctrl.Get (SetAt envDemo (SetAt envDemo c8room [] d8).1 [] d8).1 false =
      .ok [("controlType", .str "room"), ("hideData", .bool false),
           ("windows", .num 9),
           ("emit", .obj [("controlType", .str "room"),
             ("hideData", .bool false), ("doors", .num 1),
             ("windows", .num 1)])] := ⟨rfl, rfl⟩

/-- C8 (amended): for a flat data object of duplicate-free keys that are
all ordinary observable property writes of self-equal settable values
through open channels on an unshadowed node, the second application of
`Set` is an exact no-op — same tree, empty trace, no error — so the `Get`
result after two applications equals the result after one. -/
theorem C8_flat_set_idempotent (env : Env) (root : Ctrl) (π : List String)
    (flds : List (String × JSVal)) (c : Ctrl)
    (hc : root.getAt π = some c)
    (hbp : c.data.bypassNotify = false)
    (hss : c.shadowed "Set" = false)
    (hsem : c.shadowed "emit" = false)
    (hnd : (flds.map Prod.fst).Nodup)
    (hkv : ∀ kv ∈ flds, goodKey c kv.1 kv.2) :
    SetAt env (SetAt env root π (.obj flds)).1 π (.obj flds) =
      ((SetAt env root π (.obj flds)).1, [], false) ∧
    ∀ sparse, Ctrl.Get (SetAt env (SetAt env root π (.obj flds)).1 π
        (.obj flds)).1 sparse =
      Ctrl.Get (SetAt env root π (.obj flds)).1 sparse := by
  have hfuel : flds.length + 2 ≤ setFuel (.obj flds) := by
    have h1 := jsfieldsSize_ge_length flds
    simp only [setFuel, jsvalSize]
    omega
  have hS1 := SetF_flat flds (setFuel (.obj flds)) env root π c hfuel hc hbp
    hss hsem hnd hkv
  obtain ⟨herrS1, hstripS1, c1, hc1, hbp1⟩ := hS1
  have hWc : (root.modAt π (fun n => writeKeys n flds)).getAt π =
      some (writeKeys c flds) := by
    rw [getAt_modAt_self, hc]
    rfl
  have hsc1 : stripL c1 = stripL (writeKeys c flds) :=
    stripL_node_transport _ _ π _ _ hstripS1 hc1 hWc
  have hprops1 : c1.data.props = (writeKeys c flds).data.props := by
    calc c1.data.props = (stripL c1).data.props := (data_props_stripL c1).symm
      _ = (stripL (writeKeys c flds)).data.props := by rw [hsc1]
      _ = _ := data_props_stripL _
  have hacl1 : c1.data.acl = c.data.acl := by
    calc c1.data.acl = (stripL c1).data.acl := (data_acl_stripL c1).symm
      _ = (stripL (writeKeys c flds)).data.acl := by rw [hsc1]
      _ = (writeKeys c flds).data.acl := data_acl_stripL _
      _ = c.data.acl := writeKeys_acl flds c
  have hshad1 : ∀ m, c1.shadowed m = c.shadowed m := by
    intro m
    calc c1.shadowed m = (stripL c1).shadowed m := (shadowed_stripL c1 m).symm
      _ = (stripL (writeKeys c flds)).shadowed m := by rw [hsc1]
      _ = (writeKeys c flds).shadowed m := shadowed_stripL _ m
      _ = c.shadowed m := writeKeys_shadowed flds c m
  have hkv1 : ∀ kv ∈ flds, goodKey c1 kv.1 kv.2 := by
    intro kv hkvm
    obtain ⟨a1, a2, a3, a4, a5, a6, a7, a8, e2, he2, he2al, he2sv, he2nn⟩ :=
      hkv kv hkvm
    obtain ⟨e1, he1, he1al, he1eq, he1sv, he1nn⟩ :=
      writeKeys_entry flds c kv.1 kv.2 hkvm hnd
        ⟨e2, he2, he2al, he2sv, he2nn⟩ a4 a5
    exact ⟨a1, a2, a3, a4, a5,
      by rw [hacl1]; exact a6,
      by rw [hacl1]; exact a7,
      by rw [hacl1]; exact a8,
      e1, by rw [hprops1]; exact he1, he1al, he1sv, he1nn⟩
  have hveq1 : ∀ kv ∈ flds, ∃ e, propsFind c1.data.props kv.1 = some e ∧
      looseEq e.pval kv.2 = true := by
    intro kv hkvm
    obtain ⟨a1, a2, a3, a4, a5, a6, a7, a8, e2, he2, he2al, he2sv, he2nn⟩ :=
      hkv kv hkvm
    obtain ⟨e1, he1, he1al, he1eq, he1sv, he1nn⟩ :=
      writeKeys_entry flds c kv.1 kv.2 hkvm hnd
        ⟨e2, he2, he2al, he2sv, he2nn⟩ a4 a5
    exact ⟨e1, by rw [hprops1]; exact he1, he1eq⟩
  have hss1 : c1.shadowed "Set" = false := by
    rw [hshad1]
    exact hss
  have hnoop : SetAt env (SetAt env root π (.obj flds)).1 π (.obj flds) =
      ((SetAt env root π (.obj flds)).1, [], false) :=
    SetF_gated flds (setFuel (.obj flds)) env
      (SetAt env root π (.obj flds)).1 π c1 hfuel hc1 hbp1 hss1 hkv1 hveq1
  refine ⟨hnoop, ?_⟩
  intro sparse
  rw [hnoop]

theorem C8_witness :
    SetAt envDemo (SetAt envDemo c8room []
        (.obj [("windows", .num 9)])).1 [] (.obj [("windows", .num 9)]) =
      ((SetAt envDemo c8room [] (.obj [("windows", .num 9)])).1, [],
        false) ∧
    Ctrl.Get (SetAt envDemo (SetAt envDemo c8room []
        (.obj [("windows", .num 9)])).1 [] (.obj [("windows", .num 9)])).1
        false =
      Ctrl.Get (SetAt envDemo c8room [] (.obj [("windows", .num 9)])).1
        false := by
  have h := C8_flat_set_idempotent envDemo c8room [] [("windows", .num 9)]
    c8room rfl rfl rfl rfl (by simp)
    (fun kv hkv => by
      rw [List.mem_singleton] at hkv
      subst hkv
      exact ⟨by decide, by decide, by decide, rfl, by decide, rfl, rfl, rfl,
        ⟨"windows", .num 2, true⟩, rfl, rfl, rfl, rfl⟩)
  exact ⟨h.1, h.2 false⟩

end MDM
